import Mathlib

set_option maxRecDepth 8192

/-!
Verification of the cc_B chat backend: a shallow embedding in Lean 4 of the
session metadata store (`session_store.py`), the transcript scanner
(`main.py`), the streaming chat route (`app_factory.py`) and the user
settings store (`user_settings_store.py`), with theorems settling the
specification's claims about them.

Modelling conventions:
- SQLite tables keyed by a TEXT primary key are association lists
  `List (String × α)` with an upsert that replaces in place.
- Timestamps are `Nat`.  The code stores UTC ISO-8601 strings and compares
  them as TEXT; for a fixed format that comparison is order-isomorphic to
  chronological order, so `Nat` with `<` is a faithful abstraction.
- Python falsiness of an optional string (`if not cwd:`) is modelled by
  `strTruthy` on `Option String`.
-/

namespace CcB

/-- Lookup by key in an association-list store (first match, as for a
primary-keyed table that holds at most one row per key). -/
def storeGet {α : Type} (store : List (String × α)) (k : String) : Option α :=
  match store with
  | [] => none
  | (k', v) :: rest => if k' = k then some v else storeGet rest k

/-- Insert-or-update by key: replaces the existing row in place, or appends a
new row.  `f` receives the existing row (if any) and produces the new one,
mirroring SQLite's `INSERT ... ON CONFLICT DO UPDATE`. -/
def storeUpsert {α : Type} (store : List (String × α)) (k : String)
    (f : Option α → α) : List (String × α) :=
  match store with
  | [] => [(k, f none)]
  | (k', v) :: rest =>
    if k' = k then (k', f (some v)) :: rest else (k', v) :: storeUpsert rest k f

theorem storeGet_storeUpsert_self {α : Type} (store : List (String × α))
    (k : String) (f : Option α → α) :
    storeGet (storeUpsert store k f) k = some (f (storeGet store k)) := by
  induction store with
  | nil => simp [storeGet, storeUpsert]
  | cons hd tl ih =>
    obtain ⟨k', v⟩ := hd
    by_cases h : k' = k
    · simp [storeGet, storeUpsert, h]
    · simp [storeGet, storeUpsert, h, ih]

theorem storeGet_storeUpsert_ne {α : Type} (store : List (String × α))
    (k k' : String) (f : Option α → α) (h : k ≠ k') :
    storeGet (storeUpsert store k f) k' = storeGet store k' := by
  induction store with
  | nil => simp [storeGet, storeUpsert, h]
  | cons hd tl ih =>
    obtain ⟨k0, v⟩ := hd
    by_cases h0 : k0 = k
    · subst h0
      simp [storeGet, storeUpsert, h]
    · simp [storeGet, storeUpsert, h0, ih]

theorem storeGet_storeUpsert_isSome {α : Type} (store : List (String × α))
    (k k' : String) (f : Option α → α)
    (h : (storeGet store k').isSome) :
    (storeGet (storeUpsert store k f) k').isSome := by
  by_cases hk : k = k'
  · subst hk
    simp [storeGet_storeUpsert_self]
  · rwa [storeGet_storeUpsert_ne store k k' f hk]

/-- A row of the `sessions` table (primary conversations). -/
structure SessionRecord where
  title : String
  cwd : String
  createdAt : Nat
  updatedAt : Nat
deriving DecidableEq, Repr

/-- A row of the `agent_sessions` table (sub-agent runs). -/
structure AgentRecord where
  parentSessionId : Option String
  title : String
  cwd : String
  createdAt : Nat
  updatedAt : Nat
deriving DecidableEq, Repr

def SessionStore : Type := List (String × SessionRecord)

def AgentStore : Type := List (String × AgentRecord)

/-- `persist_session_metadata` (session_store.py:217-244): insert, or on
conflict overwrite title and cwd unconditionally, keep the smaller
created_at and the larger updated_at (the SQL `CASE WHEN excluded < existing
THEN excluded ELSE existing END` shape is kept literally). -/
def persistSessionMetadata (store : SessionStore) (sessionId title cwd : String)
    (createdAt updatedAt : Nat) : SessionStore :=
  storeUpsert store sessionId (fun old =>
    match old with
    | none => ⟨title, cwd, createdAt, updatedAt⟩
    | some o =>
      ⟨title, cwd,
        if createdAt < o.createdAt then createdAt else o.createdAt,
        if updatedAt > o.updatedAt then updatedAt else o.updatedAt⟩)

/-- `persist_agent_session_metadata` (session_store.py:247-284): same
timestamp merge as for primary sessions; the parent link is
`COALESCE(excluded.parent_session_id, agent_sessions.parent_session_id)`,
i.e. the incoming value when present, else the existing one. -/
def persistAgentSessionMetadata (store : AgentStore) (agentId : String)
    (parentSessionId : Option String) (title cwd : String)
    (createdAt updatedAt : Nat) : AgentStore :=
  storeUpsert store agentId (fun old =>
    match old with
    | none => ⟨parentSessionId, title, cwd, createdAt, updatedAt⟩
    | some o =>
      ⟨(match parentSessionId with
         | some p => some p
         | none => o.parentSessionId),
        title, cwd,
        if createdAt < o.createdAt then createdAt else o.createdAt,
        if updatedAt > o.updatedAt then updatedAt else o.updatedAt⟩)

end CcB

/-- Claim C1: a conversation upserted twice via persist_session_metadata with
timestamp pairs (created1, updated1) and (created2, updated2), in either
order, ends with created = min(created1, created2) and
updated = max(updated1, updated2), while title and working directory are
those of the last upsert; the timestamp outcome is order-independent. -/
theorem claim_C1_upsert_timestamp_merge (store : CcB.SessionStore)
    (sid t1 cw1 t2 cw2 : String) (cr1 up1 cr2 up2 : Nat)
    (h : CcB.storeGet store sid = none) :
    CcB.storeGet
        (CcB.persistSessionMetadata
          (CcB.persistSessionMetadata store sid t1 cw1 cr1 up1)
          sid t2 cw2 cr2 up2) sid
      = some ⟨t2, cw2, min cr1 cr2, max up1 up2⟩ ∧
    CcB.storeGet
        (CcB.persistSessionMetadata
          (CcB.persistSessionMetadata store sid t2 cw2 cr2 up2)
          sid t1 cw1 cr1 up1) sid
      = some ⟨t1, cw1, min cr1 cr2, max up1 up2⟩ := by
  constructor
  · rw [CcB.persistSessionMetadata, CcB.storeGet_storeUpsert_self,
      CcB.persistSessionMetadata, CcB.storeGet_storeUpsert_self, h]
    simp only [Option.some.injEq]
    congr 1
    · rw [min_comm]
      simp only [min_def]
      split_ifs <;> omega
    · simp only [max_def]
      split_ifs <;> omega
  · rw [CcB.persistSessionMetadata, CcB.storeGet_storeUpsert_self,
      CcB.persistSessionMetadata, CcB.storeGet_storeUpsert_self, h]
    simp only [Option.some.injEq]
    congr 1
    · simp only [min_def]
      split_ifs <;> omega
    · rw [max_comm]
      simp only [max_def]
      split_ifs <;> omega

/-- Claim C1 witness: the merge theorem applied at a concrete store and
concrete timestamps. -/
theorem claim_C1_upsert_timestamp_merge_witness :
    CcB.storeGet
        (CcB.persistSessionMetadata
          (CcB.persistSessionMetadata [] "s" "a" "/x" 5 7)
          "s" "b" "/y" 3 9) "s"
      = some ⟨"b", "/y", min 5 3, max 7 9⟩ ∧
    CcB.storeGet
        (CcB.persistSessionMetadata
          (CcB.persistSessionMetadata [] "s" "b" "/y" 3 9)
          "s" "a" "/x" 5 7) "s"
      = some ⟨"a", "/x", min 5 3, max 7 9⟩ :=
  claim_C1_upsert_timestamp_merge [] "s" "a" "/x" "b" "/y" 5 7 3 9 rfl

namespace CcB

/-- Per-file metadata produced by the transcript scanner
(`SessionFileMetadata` in models.py / main.py). -/
structure SessionFileMetadata where
  sessionId : String
  title : String
  cwd : String
  createdAt : Nat
  updatedAt : Nat
  parentSessionId : Option String
  isAgentRun : Bool
deriving DecidableEq, Repr

/-- The two tables touched by the bootstrapper. -/
structure DB where
  sessions : SessionStore
  agentSessions : AgentStore

/-- First loop of `bootstrap_sessions_from_files` (session_store.py:308-317):
persist every primary session and record its identity in the growing set of
known primary identities. -/
def bootstrapPrimaryPhase (sessions : SessionStore) (known : List String)
    (n : Nat) : List SessionFileMetadata → SessionStore × List String × Nat
  | [] => (sessions, known, n)
  | m :: ms =>
    bootstrapPrimaryPhase
      (persistSessionMetadata sessions m.sessionId m.title m.cwd
        m.createdAt m.updatedAt)
      (known ++ [m.sessionId]) (n + 1) ms

/-- Second loop of `bootstrap_sessions_from_files`
(session_store.py:319-333): persist every sub-agent run, dropping a declared
parent identity to absent when it is not among the known primary
identities. -/
def bootstrapAgentPhase (agents : AgentStore) (known : List String)
    (n : Nat) : List SessionFileMetadata → AgentStore × Nat
  | [] => (agents, n)
  | m :: ms =>
    bootstrapAgentPhase
      (persistAgentSessionMetadata agents m.sessionId
        (match m.parentSessionId with
         | some p => if known.contains p then some p else none
         | none => none)
        m.title m.cwd m.createdAt m.updatedAt)
      known (n + 1) ms

/-- `bootstrap_sessions_from_files` (session_store.py:287-335), taking the
already-discovered per-file metadata as input: partition into primary and
sub-agent records, load the identities already on record, persist primaries
first while growing the known-identity set, then persist sub-agent records
with validated parent links.  Returns the new state and the two counts. -/
def bootstrapSessionsFromFiles (db : DB) (metas : List SessionFileMetadata) :
    DB × Nat × Nat :=
  let primary := metas.filter (fun m => !m.isAgentRun)
  let agentMetas := metas.filter (fun m => m.isAgentRun)
  let known0 := db.sessions.map Prod.fst
  let prim := bootstrapPrimaryPhase db.sessions known0 0 primary
  let ag := bootstrapAgentPhase db.agentSessions prim.2.1 0 agentMetas
  (⟨prim.1, ag.1⟩, prim.2.2, ag.2)

/-- No stored sub-agent record references a primary conversation that is not
in the sessions table. -/
def noDanglingParents (db : DB) : Prop :=
  ∀ aid r p, storeGet db.agentSessions aid = some r →
    r.parentSessionId = some p → (storeGet db.sessions p).isSome

theorem storeGet_isSome_of_mem_keys {α : Type} (store : List (String × α))
    (k : String) (h : k ∈ store.map Prod.fst) : (storeGet store k).isSome := by
  induction store with
  | nil => simp at h
  | cons hd tl ih =>
    obtain ⟨k', v⟩ := hd
    by_cases hk : k' = k
    · simp [storeGet, hk]
    · simp only [List.map_cons, List.mem_cons] at h
      rcases h with h | h
      · exact absurd h.symm hk
      · simp only [storeGet, hk, if_false]
        exact ih h

theorem bootstrapPrimaryPhase_known_sound (ms : List SessionFileMetadata) :
    ∀ (sessions : SessionStore) (known : List String) (n : Nat),
    (∀ p ∈ known, (storeGet sessions p).isSome) →
    ∀ p ∈ (bootstrapPrimaryPhase sessions known n ms).2.1,
      (storeGet (bootstrapPrimaryPhase sessions known n ms).1 p).isSome := by
  induction ms with
  | nil =>
    intro sessions known n h
    simpa [bootstrapPrimaryPhase] using h
  | cons m ms ih =>
    intro sessions known n h
    simp only [bootstrapPrimaryPhase]
    apply ih
    intro p hp
    rcases List.mem_append.mp hp with hp | hp
    · exact storeGet_storeUpsert_isSome _ _ _ _ (h p hp)
    · simp only [List.mem_singleton] at hp
      subst hp
      rw [persistSessionMetadata, storeGet_storeUpsert_self]
      rfl

theorem bootstrapPrimaryPhase_mono (ms : List SessionFileMetadata) :
    ∀ (sessions : SessionStore) (known : List String) (n : Nat) (k : String),
    (storeGet sessions k).isSome →
    (storeGet (bootstrapPrimaryPhase sessions known n ms).1 k).isSome := by
  induction ms with
  | nil =>
    intro sessions known n k h
    simpa [bootstrapPrimaryPhase] using h
  | cons m ms ih =>
    intro sessions known n k h
    simp only [bootstrapPrimaryPhase]
    exact ih _ _ _ _ (storeGet_storeUpsert_isSome _ _ _ _ h)

theorem contains_mem {l : List String} {a : String}
    (h : l.contains a = true) : a ∈ l := by
  simpa using h

theorem bootstrapAgentPhase_noDangling (ms : List SessionFileMetadata) :
    ∀ (agents : AgentStore) (known : List String) (n : Nat)
      (sessionsF : SessionStore),
    (∀ p ∈ known, (storeGet sessionsF p).isSome) →
    (∀ aid r p, storeGet agents aid = some r → r.parentSessionId = some p →
      (storeGet sessionsF p).isSome) →
    ∀ aid r p,
      storeGet (bootstrapAgentPhase agents known n ms).1 aid = some r →
      r.parentSessionId = some p → (storeGet sessionsF p).isSome := by
  induction ms with
  | nil =>
    intro agents known n sF hk ha
    simpa [bootstrapAgentPhase] using ha
  | cons m ms ih =>
    intro agents known n sF hk ha
    simp only [bootstrapAgentPhase]
    apply ih _ _ _ _ hk
    intro aid r p hget hpar
    by_cases haid : m.sessionId = aid
    · subst haid
      rw [persistAgentSessionMetadata, storeGet_storeUpsert_self,
        Option.some.injEq] at hget
      rcases hold : storeGet agents m.sessionId with _ | o
      · rw [hold] at hget
        subst hget
        rcases hmp : m.parentSessionId with _ | q
        · simp [hmp] at hpar
        · rw [hmp] at hpar
          by_cases hc : q ∈ known
          · simp [hc] at hpar
            subst hpar
            exact hk q hc
          · simp [hc] at hpar
      · rw [hold] at hget
        subst hget
        rcases hmp : m.parentSessionId with _ | q
        · simp [hmp] at hpar
          exact ha m.sessionId o p hold hpar
        · rw [hmp] at hpar
          by_cases hc : q ∈ known
          · simp [hc] at hpar
            subst hpar
            exact hk q hc
          · simp [hc] at hpar
            exact ha m.sessionId o p hold hpar
    · rw [persistAgentSessionMetadata,
        storeGet_storeUpsert_ne _ _ _ _ haid] at hget
      exact ha aid r p hget hpar

end CcB

/-- Concrete sub-agent store holding an established parent link, used to
refute the never-overwritten reading of the COALESCE merge. -/
def c6AgentStoreBefore : CcB.AgentStore :=
  [("X", ⟨some "A", "t", "/c", 1, 2⟩)]

/-- Claim C6 counterexample: a sub-agent record whose stored parent link is
"A" is upserted again with a different declared parent "B"; the code's
COALESCE(excluded.parent, existing.parent) takes the incoming value, so the
established link is overwritten — contradicting the claim that a later
upsert supplying a different parent never overwrites it. -/
theorem claim_C6_counterexample :
    CcB.storeGet
        (CcB.persistAgentSessionMetadata c6AgentStoreBefore "X" (some "B")
          "t2" "/c2" 3 4) "X"
      = some ⟨some "B", "t2", "/c2", 1, 4⟩ ∧
    (some "B" : Option String) ≠ some "A" := by
  constructor
  · decide
  · decide

/-- Claim C6 (amended): the bootstrapper passes a parent identity to the
store only when the declared parent is among the known primary identities
(those on record before the scan plus those persisted by this scan), so if
no stored sub-agent record references a non-existent primary conversation
before a bootstrap run, none does after it; an upsert whose incoming parent
is absent preserves an established parent link, but an upsert supplying a
parent value overwrites it (COALESCE(incoming, existing) semantics). -/
theorem claim_C6_amended (db : CcB.DB) (metas : List CcB.SessionFileMetadata)
    (hbefore : CcB.noDanglingParents db) :
    CcB.noDanglingParents (CcB.bootstrapSessionsFromFiles db metas).1 ∧
    (∀ (agents : CcB.AgentStore) (aid : String) (r : CcB.AgentRecord)
       (t c : String) (cr up : Nat),
      CcB.storeGet agents aid = some r →
      (CcB.storeGet (CcB.persistAgentSessionMetadata agents aid none t c cr up)
          aid).map (·.parentSessionId) = some r.parentSessionId) ∧
    (∀ (agents : CcB.AgentStore) (aid p : String) (t c : String) (cr up : Nat),
      (CcB.storeGet (CcB.persistAgentSessionMetadata agents aid (some p) t c
          cr up) aid).map (·.parentSessionId) = some (some p)) := by
  refine ⟨?_, ?_, ?_⟩
  · intro aid r p hget hpar
    dsimp only [CcB.bootstrapSessionsFromFiles] at hget ⊢
    refine CcB.bootstrapAgentPhase_noDangling _ _ _ _ _ ?_ ?_ aid r p hget hpar
    · apply CcB.bootstrapPrimaryPhase_known_sound
      intro q hq
      exact CcB.storeGet_isSome_of_mem_keys _ _ hq
    · intro aid' r' p' hget' hpar'
      exact CcB.bootstrapPrimaryPhase_mono _ _ _ _ _
        (hbefore aid' r' p' hget' hpar')
  · intro agents aid r t c cr up hget
    rw [CcB.persistAgentSessionMetadata, CcB.storeGet_storeUpsert_self, hget]
    rfl
  · intro agents aid p t c cr up
    rw [CcB.persistAgentSessionMetadata, CcB.storeGet_storeUpsert_self]
    rcases CcB.storeGet agents aid with _ | o <;> rfl

/-- Claim C6 amended witness: the amended theorem applied to a concrete
empty database and a concrete scan containing one primary session and one
sub-agent run that declares it as parent. -/
theorem claim_C6_amended_witness :
    CcB.noDanglingParents
      (CcB.bootstrapSessionsFromFiles ⟨[], []⟩
        [⟨"P", "t", "/c", 1, 2, none, false⟩,
         ⟨"agent-1", "t", "/c", 1, 2, some "P", true⟩]).1 ∧
    (CcB.storeGet (CcB.persistAgentSessionMetadata c6AgentStoreBefore "X" none
        "t2" "/c2" 3 4) "X").map (·.parentSessionId) = some (some "A") :=
  ⟨(claim_C6_amended ⟨[], []⟩ _
      (by intro aid r p h; simp [CcB.storeGet] at h)).1,
   (claim_C6_amended ⟨[], []⟩ []
      (by intro aid r p h; simp [CcB.storeGet] at h)).2.1
     c6AgentStoreBefore "X" ⟨some "A", "t", "/c", 1, 2⟩ "t2" "/c2" 3 4 rfl⟩

namespace CcB

/-- Python ASCII whitespace as stripped by `str.strip()`. -/
def isPyWs (c : Char) : Bool :=
  c = ' ' || c = '\t' || c = '\n' || c = '\r' || c = '\x0b' || c = '\x0c'

/-- `str.strip()`: drop leading and trailing whitespace.  (Defined over the
character list so that it evaluates inside the kernel.) -/
def pyStrip (s : String) : String :=
  ⟨((s.data.dropWhile isPyWs).reverse.dropWhile isPyWs).reverse⟩

def frontMatches : List Char → List Char → Bool
  | [], _ => true
  | _ :: _, [] => false
  | p :: ps, c :: cs => p == c && frontMatches ps cs

/-- `str.startswith(marker)`. -/
def strStartsWith (s marker : String) : Bool :=
  frontMatches marker.data s.data

/-- The raw `timestamp` field of one transcript record, abstracted:
`parseable t` stands for an ISO-8601 string denoting time `t`, `garbage`
for a present but unparseable string (`_parse_iso_timestamp` returns the
current time for the latter). -/
inductive TsField where
  | parseable (t : Nat)
  | garbage
deriving DecidableEq, Repr

/-- The fields of one JSON transcript record that
`_extract_session_metadata_from_file` (main.py:397-460) reads: `timestamp`,
`cwd`, `message.cwd`, `sessionId`, `message.role`, and the rendered text of
`message.content` (already passed through `_render_message_content`).
`none` models an absent or JSON-null field. -/
structure TranscriptRecord where
  timestamp : Option TsField
  cwd : Option String
  messageCwd : Option String
  parentHint : Option String
  messageRole : Option String
  messageText : String
deriving DecidableEq, Repr

/-- One line of a transcript file: blank (stripped to empty), malformed
(JSON decode error), or a parsed record. -/
inductive FileLine where
  | blank
  | malformed
  | record (r : TranscriptRecord)
deriving DecidableEq, Repr

/-- `_parse_iso_timestamp` on a present timestamp value: the denoted time
for a parseable string, the current time for an unparseable one. -/
def parseIsoTimestamp (now : Nat) : TsField → Nat
  | .parseable t => t
  | .garbage => now

/-- Python truthiness of an optional string (`if not cwd:` treats both
`None` and the empty string as unset). -/
def strTruthy : Option String → Bool
  | some s => s != ""
  | none => false

/-- Accumulator of the per-record loop in
`_extract_session_metadata_from_file` (main.py:400-439). -/
structure ScanState where
  cwd : Option String
  firstUserText : Option String
  createdAt : Option Nat
  updatedAt : Option Nat
  parentSessionId : Option String
deriving DecidableEq, Repr

/-- One iteration of the record loop (main.py:408-439): blank and malformed
lines are skipped; a record updates the running earliest/latest timestamp
(only when a timestamp value is present), supplies the working directory
and parent hint if still unset, and supplies the first user message text if
still unset. -/
def scanLine (now : Nat) (st : ScanState) : FileLine → ScanState
  | .blank => st
  | .malformed => st
  | .record r =>
    let st1 :=
      match r.timestamp with
      | none => st
      | some tf =>
        let ts := parseIsoTimestamp now tf
        { st with
          createdAt := some (match st.createdAt with
            | none => ts
            | some c => if ts < c then ts else c),
          updatedAt := some (match st.updatedAt with
            | none => ts
            | some u => if ts > u then ts else u) }
    let st2 :=
      if strTruthy st1.cwd then st1
      else { st1 with cwd := if strTruthy r.cwd then r.cwd else r.messageCwd }
    let st3 :=
      if st2.parentSessionId = none then
        { st2 with parentSessionId := r.parentHint }
      else st2
    if strTruthy st3.firstUserText then st3
    else if r.messageRole = some "user" ∧ pyStrip r.messageText ≠ "" then
      { st3 with firstUserText := some (pyStrip r.messageText) }
    else st3

def scanLines (now : Nat) (st : ScanState) : List FileLine → ScanState
  | [] => st
  | l :: ls => scanLines now (scanLine now st l) ls

def initialScanState : ScanState := ⟨none, none, none, none, none⟩

/-- `_is_agent_session_file` (main.py:378-379). -/
def isAgentFileStem (stem : String) : Bool := strStartsWith stem "agent-"

/-- `_extract_session_metadata_from_file` (main.py:397-460).  `file = none`
models a file that cannot be opened (OSError): the file is skipped.  After
the scan: a file with no truthy working directory is skipped; created
defaults to the current time, updated to created; the title is the first
user text (or the stem), trimmed, with the stem as fallback when empty,
truncated to 30 characters plus an ellipsis marker. -/
def extractSessionMetadataFromFile (now : Nat) (stem : String)
    (file : Option (List FileLine)) : Option SessionFileMetadata :=
  match file with
  | none => none
  | some lines =>
    let st := scanLines now initialScanState lines
    match st.cwd with
    | none => none
    | some cwdVal =>
      if cwdVal = "" then none
      else
        let createdAt := st.createdAt.getD now
        let updatedAt := st.updatedAt.getD createdAt
        let base :=
          match st.firstUserText with
          | some t => if t = "" then stem else t
          | none => stem
        let title0 := if pyStrip base = "" then stem else pyStrip base
        let title :=
          if title0.length > 30 then title0.take 30 ++ "..." else title0
        some ⟨stem, title, cwdVal, createdAt, updatedAt, st.parentSessionId,
          isAgentFileStem stem⟩

/-- `_discover_session_metadata_from_files` (main.py:463-469): extract each
file's metadata, skipping files that yield none; no failure is fatal to the
scan. -/
def discoverSessionMetadataFromFiles (now : Nat)
    (files : List (String × Option (List FileLine))) :
    List SessionFileMetadata :=
  files.filterMap (fun f => extractSessionMetadataFromFile now f.1 f.2)

def isRecordLine : FileLine → Bool
  | .record _ => true
  | _ => false

/-- The timestamps the specification's words count: values of records whose
timestamp field is present and parseable. -/
def specParsedTimestamps (lines : List FileLine) : List Nat :=
  lines.filterMap (fun l =>
    match l with
    | .record r =>
      match r.timestamp with
      | some (.parseable t) => some t
      | _ => none
    | _ => none)

/-- The timestamps the code folds into the bounds: every present timestamp
field, an unparseable one contributing the current time. -/
def codeTimestamps (now : Nat) (lines : List FileLine) : List Nat :=
  lines.filterMap (fun l =>
    match l with
    | .record r => r.timestamp.map (parseIsoTimestamp now)
    | _ => none)

def foldMinOpt (acc : Option Nat) (l : List Nat) : Option Nat :=
  l.foldl (fun a t => some (match a with
    | none => t
    | some c => if t < c then t else c)) acc

def foldMaxOpt (acc : Option Nat) (l : List Nat) : Option Nat :=
  l.foldl (fun a t => some (match a with
    | none => t
    | some u => if t > u then t else u)) acc

theorem scanLine_skips (now : Nat) (st : ScanState) :
    scanLine now st .blank = st ∧ scanLine now st .malformed = st :=
  ⟨rfl, rfl⟩

theorem scanLines_filter_records (now : Nat) (ls : List FileLine) :
    ∀ st, scanLines now st (ls.filter isRecordLine) = scanLines now st ls := by
  induction ls with
  | nil => intro st; rfl
  | cons l ls ih =>
    intro st
    cases l with
    | blank => simpa [List.filter, isRecordLine, scanLines, scanLine] using ih st
    | malformed =>
      simpa [List.filter, isRecordLine, scanLines, scanLine] using ih st
    | record r => simp [List.filter, isRecordLine, scanLines, ih]

theorem scanLine_createdAt (now : Nat) (st : ScanState) (r : TranscriptRecord) :
    (scanLine now st (.record r)).createdAt =
      match r.timestamp with
      | none => st.createdAt
      | some tf => some (match st.createdAt with
          | none => parseIsoTimestamp now tf
          | some c => if parseIsoTimestamp now tf < c then
              parseIsoTimestamp now tf else c) := by
  simp only [scanLine]
  rcases r.timestamp with _ | tf <;>
    split_ifs <;> rfl

theorem scanLine_updatedAt (now : Nat) (st : ScanState) (r : TranscriptRecord) :
    (scanLine now st (.record r)).updatedAt =
      match r.timestamp with
      | none => st.updatedAt
      | some tf => some (match st.updatedAt with
          | none => parseIsoTimestamp now tf
          | some u => if parseIsoTimestamp now tf > u then
              parseIsoTimestamp now tf else u) := by
  simp only [scanLine]
  rcases r.timestamp with _ | tf <;>
    split_ifs <;> rfl

theorem scanLines_createdAt (now : Nat) (ls : List FileLine) :
    ∀ st, (scanLines now st ls).createdAt =
      foldMinOpt st.createdAt (codeTimestamps now ls) := by
  induction ls with
  | nil => intro st; rfl
  | cons l ls ih =>
    intro st
    cases l with
    | blank => simpa [scanLines, scanLine, codeTimestamps, foldMinOpt] using ih st
    | malformed =>
      simpa [scanLines, scanLine, codeTimestamps, foldMinOpt] using ih st
    | record r =>
      simp only [scanLines, codeTimestamps, List.filterMap_cons]
      rcases htf : r.timestamp with _ | tf
      · simp only [htf, Option.map_none']
        rw [ih]
        congr 1
        rw [scanLine_createdAt, htf]
      · simp only [htf, Option.map_some']
        rw [ih]
        simp only [foldMinOpt, List.foldl_cons]
        congr 1
        rw [scanLine_createdAt, htf]

theorem scanLines_updatedAt (now : Nat) (ls : List FileLine) :
    ∀ st, (scanLines now st ls).updatedAt =
      foldMaxOpt st.updatedAt (codeTimestamps now ls) := by
  induction ls with
  | nil => intro st; rfl
  | cons l ls ih =>
    intro st
    cases l with
    | blank => simpa [scanLines, scanLine, codeTimestamps, foldMaxOpt] using ih st
    | malformed =>
      simpa [scanLines, scanLine, codeTimestamps, foldMaxOpt] using ih st
    | record r =>
      simp only [scanLines, codeTimestamps, List.filterMap_cons]
      rcases htf : r.timestamp with _ | tf
      · simp only [htf, Option.map_none']
        rw [ih]
        congr 1
        rw [scanLine_updatedAt, htf]
      · simp only [htf, Option.map_some']
        rw [ih]
        simp only [foldMaxOpt, List.foldl_cons]
        congr 1
        rw [scanLine_updatedAt, htf]

theorem scanLine_cwd_stays_falsy (now : Nat) (st : ScanState) (l : FileLine)
    (hst : strTruthy st.cwd = false)
    (hl : ∀ r, l = .record r → strTruthy r.cwd = false ∧
      strTruthy r.messageCwd = false) :
    strTruthy (scanLine now st l).cwd = false := by
  cases l with
  | blank => exact hst
  | malformed => exact hst
  | record r =>
    obtain ⟨h1, h2⟩ := hl r rfl
    simp only [scanLine]
    rcases r.timestamp with _ | tf <;>
      simp [hst, h1, h2] <;> split_ifs <;> simp [hst, h1, h2]

theorem scanLines_cwd_stays_falsy (now : Nat) (ls : List FileLine) :
    ∀ st, strTruthy st.cwd = false →
    (∀ r, FileLine.record r ∈ ls → strTruthy r.cwd = false ∧
      strTruthy r.messageCwd = false) →
    strTruthy (scanLines now st ls).cwd = false := by
  induction ls with
  | nil => intro st hst _; exact hst
  | cons l ls ih =>
    intro st hst hl
    simp only [scanLines]
    apply ih
    · apply scanLine_cwd_stays_falsy now st l hst
      intro r hr
      exact hl r (by rw [hr]; exact List.mem_cons_self _ _)
    · intro r hr
      exact hl r (List.mem_cons_of_mem _ hr)

end CcB

/-- A transcript file with one well-formed record (timestamp 5, working
directory `/a`) and one record whose timestamp is present but unparseable. -/
def c7File : List CcB.FileLine :=
  [.record ⟨some (.parseable 5), some "/a", none, none, none, ""⟩,
   .record ⟨some .garbage, none, none, none, none, ""⟩]

/-- Claim C7 counterexample: the only parseable timestamp in the file is 5,
so the claim says updated = 5; but the record with a present, unparseable
timestamp contributes the current time (100) to the running bounds, so the
code reports updated = 100. -/
theorem claim_C7_counterexample :
    CcB.specParsedTimestamps c7File = [5] ∧
    (CcB.extractSessionMetadataFromFile 100 "s1" (some c7File)).map
        (·.updatedAt) = some 100 ∧
    (100 : Nat) ≠ 5 := by
  refine ⟨by decide, by decide, by decide⟩

/-- Claim C7 (amended): per-file extraction folds every present timestamp
into the bounds, where a record with a missing timestamp is skipped and a
record with a present but unparseable timestamp contributes the current
time; created is the fold-minimum (defaulting to the current time when no
record carries a timestamp) and updated the fold-maximum (defaulting to
created); a file from which no working directory can be extracted is
skipped entirely; malformed or blank lines do not change the result, and an
unopenable file yields no metadata rather than a failure of the scan. -/
theorem claim_C7_amended (now : Nat) (stem : String) (lines : List CcB.FileLine) :
    CcB.extractSessionMetadataFromFile now stem none = none ∧
    CcB.extractSessionMetadataFromFile now stem
        (some (lines.filter CcB.isRecordLine))
      = CcB.extractSessionMetadataFromFile now stem (some lines) ∧
    ((∀ r, CcB.FileLine.record r ∈ lines → CcB.strTruthy r.cwd = false ∧
        CcB.strTruthy r.messageCwd = false) →
      CcB.extractSessionMetadataFromFile now stem (some lines) = none) ∧
    (∀ meta, CcB.extractSessionMetadataFromFile now stem (some lines)
        = some meta →
      meta.createdAt
        = (CcB.foldMinOpt none (CcB.codeTimestamps now lines)).getD now ∧
      meta.updatedAt
        = (CcB.foldMaxOpt none (CcB.codeTimestamps now lines)).getD
            meta.createdAt) := by
  refine ⟨rfl, ?_, ?_, ?_⟩
  · simp only [CcB.extractSessionMetadataFromFile]
    rw [CcB.scanLines_filter_records]
  · intro hcwd
    have hfalsy : CcB.strTruthy
        (CcB.scanLines now CcB.initialScanState lines).cwd = false :=
      CcB.scanLines_cwd_stays_falsy now lines CcB.initialScanState rfl hcwd
    simp only [CcB.extractSessionMetadataFromFile]
    rcases hc : (CcB.scanLines now CcB.initialScanState lines).cwd with _ | c
    · rfl
    · rw [hc] at hfalsy
      simp only [CcB.strTruthy, bne_eq_false_iff_eq] at hfalsy
      simp [hfalsy]
  · intro meta hmeta
    simp only [CcB.extractSessionMetadataFromFile] at hmeta
    rcases hc : (CcB.scanLines now CcB.initialScanState lines).cwd with _ | c <;>
      rw [hc] at hmeta <;> dsimp only at hmeta
    · exact absurd hmeta (by simp)
    · by_cases hce : c = ""
      · rw [if_pos hce] at hmeta
        exact absurd hmeta (by simp)
      · rw [if_neg hce] at hmeta
        simp only [Option.some.injEq] at hmeta
        subst hmeta
        constructor
        · simp only
          rw [CcB.scanLines_createdAt now lines CcB.initialScanState]
          rfl
        · simp only
          rw [CcB.scanLines_updatedAt now lines CcB.initialScanState,
            CcB.scanLines_createdAt now lines CcB.initialScanState]
          rfl

/-- Claim C7 amended witness: the amended theorem applied to a concrete
cwd-less file (skipped entirely) and to the concrete file `c7File`, whose
extracted bounds are the folds over the code's contributed timestamps. -/
theorem claim_C7_amended_witness :
    CcB.extractSessionMetadataFromFile 7 "s"
        (some [CcB.FileLine.malformed,
          .record ⟨some (.parseable 3), none, none, none, none, "hi"⟩])
      = none ∧
    (⟨"s1", "s1", "/a", 5, 100, none, false⟩ :
        CcB.SessionFileMetadata).createdAt
      = (CcB.foldMinOpt none (CcB.codeTimestamps 100 c7File)).getD 100 :=
  ⟨(claim_C7_amended 7 "s" _).2.2.1
      (by
        intro r hr
        simp only [List.mem_cons, List.not_mem_nil, or_false] at hr
        rcases hr with hr | hr
        · exact absurd hr (by simp)
        · cases hr
          exact ⟨rfl, rfl⟩),
   ((claim_C7_amended 100 "s1" c7File).2.2.2
      ⟨"s1", "s1", "/a", 5, 100, none, false⟩ (by decide)).1⟩

namespace CcB

/-- A content block of an assistant message: a text block carrying a
fragment, or any other block kind (tool use, thinking, ...), which the
token loop ignores. -/
inductive ContentBlock where
  | text (s : String)
  | other
deriving DecidableEq, Repr

/-- One message of the agent capability's stream, restricted to the fields
the /chat event generator (app_factory.py:199-334) reads: a SystemMessage's
subtype and `data["session_id"]`, an AssistantMessage's content blocks, a
ResultMessage's session_id and result string, and — for every other message
kind — the session identity findable in its structural projection. -/
inductive SdkMessage where
  | system (subtype : String) (dataSessionId : Option String)
  | assistant (content : List ContentBlock)
  | result (sessionId : Option String) (res : Option String)
  | otherMsg (payloadSessionId : Option String)
deriving DecidableEq, Repr

/-- One server-sent wire event of the /chat stream. -/
inductive WireEvent where
  | session (sessionId : Option String) (cwd : String) (isNew : Bool)
  | token (sessionId : Option String) (text : String)
  | message (sessionId : Option String) (payload : SdkMessage)
  | done (sessionId : String) (cwd : String) (length : Nat)
  | error (msg : String)
deriving DecidableEq, Repr

/-- `_extract_session_id_from_payload` (app_factory.py:57-83) composed with
the structural projection of the message: the first non-empty session
identity string found in the projected payload, per message kind. -/
def extractSessionIdFromPayload : SdkMessage → Option String
  | .system _ d => d.bind (fun s => if s = "" then none else some s)
  | .assistant _ => none
  | .result sid _ => sid.bind (fun s => if s = "" then none else some s)
  | .otherMsg p => p.bind (fun s => if s = "" then none else some s)

/-- Per-turn constants of the event generator: the effective working
directory, the is-new flag, the resume identity, the precomputed
new-session title, the stored title when resuming, the turn timestamp, and
an optional persistence fault (a raised exception inside
`persist_session_metadata`, `none` when persistence succeeds). -/
structure TurnEnv where
  finalCwd : String
  isNewSession : Bool
  resumeId : Option String
  newTitle : String
  existingTitle : Option String
  now : Nat
  persistError : Option String
deriving Repr

/-- Mutable state of the generator: the working session identity, the
accumulated reply fragments, and the metadata store. -/
structure StreamState where
  sessionId : Option String
  chunks : List String
  store : SessionStore

/-- The agent capability's output for one turn: its messages, and an
optional exception the iterator raises after them. -/
structure TurnInput where
  messages : List SdkMessage
  agentError : Option String
deriving Repr

/-- The token loop over an AssistantMessage's content
(app_factory.py:257-270): for each text block with non-empty text, append
the fragment and emit a `token` event; everything else is skipped.  Returns
the events and the appended fragments (which are the same texts). -/
def processTokenBlocks (sid : Option String) :
    List ContentBlock → List WireEvent × List String
  | [] => ([], [])
  | .text s :: rest =>
    if s = "" then processTokenBlocks sid rest
    else
      let p := processTokenBlocks sid rest
      (.token sid s :: p.1, s :: p.2)
  | .other :: rest => processTokenBlocks sid rest

/-- The mirror step at the end of the loop body (app_factory.py:287-299):
emit a `message` event carrying the extracted payload identity (or the
current one), and adopt the payload identity when the working identity is
still unset. -/
def mirrorStep (st : StreamState) (m : SdkMessage) : WireEvent × StreamState :=
  let payloadSid :=
    match extractSessionIdFromPayload m with
    | some s => some s
    | none => st.sessionId
  let sid' :=
    match st.sessionId with
    | none => payloadSid
    | some s => some s
  (.message payloadSid m, { st with sessionId := sid' })

/-- One iteration of the message loop (app_factory.py:217-299).  Returns the
emitted events, the new state, and `some e` when persistence raised
exception `e` mid-message (aborting the loop). -/
def stepMessage (env : TurnEnv) (st : StreamState) (m : SdkMessage) :
    List WireEvent × StreamState × Option String :=
  match m with
  | .system subtype d =>
    if subtype = "init" then
      match st.sessionId with
      | none =>
        match d with
        | some sidNew =>
          if env.isNewSession then
            match env.persistError with
            | some e => ([], { st with sessionId := some sidNew }, some e)
            | none =>
              let st1 : StreamState :=
                ⟨some sidNew, st.chunks,
                  persistSessionMetadata st.store sidNew env.newTitle
                    env.finalCwd env.now env.now⟩
              let p := mirrorStep st1 m
              ([.session (some sidNew) env.finalCwd true, p.1], p.2, none)
          else
            let p := mirrorStep { st with sessionId := some sidNew } m
            ([.session (some sidNew) env.finalCwd true, p.1], p.2, none)
        | none =>
          let p := mirrorStep st m
          ([.session none env.finalCwd true, p.1], p.2, none)
      | some sidCur =>
        let p := mirrorStep st m
        ([.session (some sidCur) env.finalCwd false, p.1], p.2, none)
    else
      let p := mirrorStep st m
      ([p.1], p.2, none)
  | .assistant blocks =>
    let t := processTokenBlocks st.sessionId blocks
    let p := mirrorStep { st with chunks := st.chunks ++ t.2 } m
    (t.1 ++ [p.1], p.2, none)
  | .result rsid rres =>
    let s1 :=
      match st.sessionId with
      | none =>
        ([WireEvent.session rsid env.finalCwd env.isNewSession],
          { st with sessionId := rsid })
      | some _ => (([] : List WireEvent), st)
    let st2 :=
      match rres, s1.2.chunks with
      | some r, [] => { s1.2 with chunks := [r] }
      | _, _ => s1.2
    let p := mirrorStep st2 m
    (s1.1 ++ [p.1], p.2, none)
  | .otherMsg _ =>
    let p := mirrorStep st m
    ([p.1], p.2, none)

/-- The message loop (app_factory.py:217-299): process messages in arrival
order, stopping at the first persistence fault. -/
def runMessages (env : TurnEnv) : StreamState → List SdkMessage →
    List WireEvent × StreamState × Option String
  | st, [] => ([], st, none)
  | st, m :: ms =>
    let s := stepMessage env st m
    match s.2.2 with
    | some e => (s.1, s.2.1, some e)
    | none =>
      let r := runMessages env s.2.1 ms
      (s.1 ++ r.1, r.2.1, r.2.2)

/-- Title derivation for a new conversation (app_factory.py:203-205): trim
the user message, fall back to the fixed placeholder when empty, truncate
to 30 characters plus an ellipsis marker when longer. -/
def newSessionTitle (msg : String) : String :=
  let t := if pyStrip msg = "" then "新会话" else pyStrip msg
  if t.length > 30 then t.take 30 ++ "..." else t

/-- The whole `event_stream` generator (app_factory.py:199-334): run the
message loop, then emit exactly one terminal event — the caught mid-stream
fault, the caught agent fault, the ProtocolViolation when no identity was
ever resolved, the caught end-of-turn persistence fault, or the `done`
event after the final upsert. -/
def eventStream (env : TurnEnv) (store0 : SessionStore) (input : TurnInput) :
    List WireEvent × SessionStore :=
  let res := runMessages env ⟨env.resumeId, [], store0⟩ input.messages
  match res.2.2 with
  | some e => (res.1 ++ [.error e], res.2.1.store)
  | none =>
    match input.agentError with
    | some e => (res.1 ++ [.error e], res.2.1.store)
    | none =>
      match res.2.1.sessionId with
      | none =>
        (res.1 ++ [.error "Claude did not return session_id"], res.2.1.store)
      | some sid =>
        let title :=
          match env.existingTitle with
          | none => env.newTitle
          | some t => t
        match env.persistError with
        | some e => (res.1 ++ [.error e], res.2.1.store)
        | none =>
          (res.1 ++ [.done sid env.finalCwd
              (String.join res.2.1.chunks).length],
            persistSessionMetadata res.2.1.store sid title env.finalCwd
              env.now env.now)

def WireEvent.isTokenEv : WireEvent → Bool
  | .token _ _ => true
  | _ => false

def WireEvent.isSessionEvKind : WireEvent → Bool
  | .session _ _ _ => true
  | _ => false

def WireEvent.isTerminal : WireEvent → Bool
  | .done _ _ _ => true
  | .error _ => true
  | _ => false

def WireEvent.isDoneEv : WireEvent → Bool
  | .done _ _ _ => true
  | _ => false

end CcB

/-- Claim C8: title derivation for a new conversation — the trimmed user
message is stored verbatim when it has 30 or fewer characters, truncated to
its first 30 characters plus an ellipsis marker when longer, and an empty
or whitespace-only message yields the fixed placeholder title. -/
theorem claim_C8_title_derivation (msg : String) :
    (CcB.pyStrip msg = "" → CcB.newSessionTitle msg = "新会话") ∧
    (CcB.pyStrip msg ≠ "" → (CcB.pyStrip msg).length ≤ 30 →
      CcB.newSessionTitle msg = CcB.pyStrip msg) ∧
    ((CcB.pyStrip msg).length > 30 →
      CcB.newSessionTitle msg = (CcB.pyStrip msg).take 30 ++ "...") := by
  refine ⟨?_, ?_, ?_⟩
  · intro h
    simp only [CcB.newSessionTitle, h, if_pos rfl]
    decide
  · intro h hlen
    simp only [CcB.newSessionTitle, if_neg h]
    rw [if_neg (by omega)]
  · intro hlen
    have h : CcB.pyStrip msg ≠ "" := by
      intro he
      rw [he] at hlen
      simp at hlen
    simp only [CcB.newSessionTitle, if_neg h]
    rw [if_pos hlen]

/-- Claim C8 witness: the title theorem applied to a whitespace-only
message, a short message, and a 35-character message. -/
theorem claim_C8_title_derivation_witness :
    CcB.newSessionTitle "   " = "新会话" ∧
    CcB.newSessionTitle "  hello " = "hello" ∧
    CcB.newSessionTitle "aaaaaaaaaaaaaaaaaaaaaaaaaaaaaaaaaaa"
      = "aaaaaaaaaaaaaaaaaaaaaaaaaaaaaa" ++ "..." :=
  ⟨(claim_C8_title_derivation "   ").1 (by decide),
   by
    rw [(claim_C8_title_derivation "  hello ").2.1 (by decide) (by decide)]
    decide,
   by
    rw [(claim_C8_title_derivation
        "aaaaaaaaaaaaaaaaaaaaaaaaaaaaaaaaaaa").2.2 (by decide)]
    decide⟩

namespace CcB

theorem processTokenBlocks_events_token (sid : Option String)
    (bs : List ContentBlock) :
    ∀ e ∈ (processTokenBlocks sid bs).1, ∃ s, e = .token sid s ∧ s ≠ "" := by
  induction bs with
  | nil => intro e he; simp [processTokenBlocks] at he
  | cons b bs ih =>
    intro e he
    cases b with
    | text s =>
      simp only [processTokenBlocks] at he
      by_cases hs : s = ""
      · rw [if_pos hs] at he
        exact ih e he
      · rw [if_neg hs] at he
        rcases List.mem_cons.mp he with rfl | he
        · exact ⟨s, rfl, hs⟩
        · exact ih e he
    | other => exact ih e he

theorem stepMessage_no_terminal (env : TurnEnv) (st : StreamState)
    (m : SdkMessage) :
    ∀ e ∈ (stepMessage env st m).1, WireEvent.isTerminal e = false := by
  intro e he
  cases m with
  | system subtype d =>
    simp only [stepMessage] at he
    split at he
    · split at he
      · split at he
        · split at he
          · split at he
            · simp at he
            · simp [mirrorStep] at he
              rcases he with rfl | rfl <;> rfl
          · simp [mirrorStep] at he
            rcases he with rfl | rfl <;> rfl
        · simp [mirrorStep] at he
          rcases he with rfl | rfl <;> rfl
      · simp [mirrorStep] at he
        rcases he with rfl | rfl <;> rfl
    · simp [mirrorStep] at he
      subst he
      rfl
  | assistant blocks =>
    simp only [stepMessage, List.mem_append] at he
    rcases he with he | he
    · obtain ⟨s, rfl, -⟩ :=
        processTokenBlocks_events_token st.sessionId blocks e he
      rfl
    · simp [mirrorStep] at he
      subst he
      rfl
  | result rsid rres =>
    simp only [stepMessage, List.mem_append] at he
    rcases he with he | he
    · split at he
      · simp at he
        subst he
        rfl
      · simp at he
    · simp [mirrorStep] at he
      subst he
      rfl
  | otherMsg p =>
    simp [stepMessage, mirrorStep] at he
    subst he
    rfl

theorem runMessages_no_terminal (env : TurnEnv) (ms : List SdkMessage) :
    ∀ st, ∀ e ∈ (runMessages env st ms).1,
      WireEvent.isTerminal e = false := by
  induction ms with
  | nil => intro st e he; simp [runMessages] at he
  | cons m ms ih =>
    intro st e he
    simp only [runMessages] at he
    split at he
    · exact stepMessage_no_terminal env st m e he
    · rcases List.mem_append.mp he with he | he
      · exact stepMessage_no_terminal env st m e he
      · exact ih _ e he

/-- First index at which the predicate holds among the stream's events. -/
def firstIdxOf (p : WireEvent → Bool) : List WireEvent → Option Nat
  | [] => none
  | e :: evs => if p e then some 0 else (firstIdxOf p evs).map (· + 1)

/-- The first `session` event precedes the first `token` event: whenever a
token event occurs, a session event occurs at a strictly earlier index. -/
def sessionPrecedesToken (evs : List WireEvent) : Prop :=
  ∀ j, firstIdxOf WireEvent.isTokenEv evs = some j →
    ∃ i, firstIdxOf WireEvent.isSessionEvKind evs = some i ∧ i < j

/-- Exactly one terminal event is emitted, and it is the last event. -/
def exactlyOneTerminalLast (evs : List WireEvent) : Prop :=
  (∃ e, evs.getLast? = some e ∧ WireEvent.isTerminal e = true) ∧
  ∀ e ∈ evs.dropLast, WireEvent.isTerminal e = false

/-- The stream-ordering property of claim C2 for one turn. -/
def c2Property (env : TurnEnv) (store0 : SessionStore)
    (input : TurnInput) : Prop :=
  sessionPrecedesToken (eventStream env store0 input).1 ∧
  exactlyOneTerminalLast (eventStream env store0 input).1

theorem terminal_concat (runEvs : List WireEvent) (t : WireEvent)
    (ht : WireEvent.isTerminal t = true)
    (hrun : ∀ e ∈ runEvs, WireEvent.isTerminal e = false) :
    exactlyOneTerminalLast (runEvs ++ [t]) := by
  constructor
  · exact ⟨t, by simp, ht⟩
  · intro e he
    rw [List.dropLast_concat] at he
    exact hrun e he

theorem eventStream_decomp (env : TurnEnv) (store0 : SessionStore)
    (input : TurnInput) :
    ∃ t, WireEvent.isTerminal t = true ∧
      (eventStream env store0 input).1
        = (runMessages env ⟨env.resumeId, [], store0⟩ input.messages).1
            ++ [t] := by
  simp only [eventStream]
  split
  · exact ⟨_, by rfl, rfl⟩
  · split
    · exact ⟨_, by rfl, rfl⟩
    · split
      · exact ⟨_, by rfl, rfl⟩
      · split
        · exact ⟨_, by rfl, rfl⟩
        · exact ⟨_, by rfl, rfl⟩

theorem eventStream_terminalLast (env : TurnEnv) (store0 : SessionStore)
    (input : TurnInput) :
    exactlyOneTerminalLast (eventStream env store0 input).1 := by
  obtain ⟨t, ht, hdec⟩ := eventStream_decomp env store0 input
  rw [hdec]
  exact terminal_concat _ t ht
    (runMessages_no_terminal env input.messages ⟨env.resumeId, [], store0⟩)

theorem isTokenEv_false_of_terminal (t : WireEvent)
    (ht : WireEvent.isTerminal t = true) : WireEvent.isTokenEv t = false := by
  cases t <;> simp_all [WireEvent.isTerminal, WireEvent.isTokenEv]

theorem no_token_precedes (evs : List WireEvent)
    (h : firstIdxOf WireEvent.isTokenEv evs = none) :
    sessionPrecedesToken evs := by
  intro j hj
  rw [h] at hj
  exact absurd hj (by simp)

theorem head_session_precedes (evs : List WireEvent) (sid : Option String)
    (cw : String) (b : Bool) :
    sessionPrecedesToken (.session sid cw b :: evs) := by
  intro j hj
  refine ⟨0, ?_, ?_⟩
  · simp [firstIdxOf, WireEvent.isSessionEvKind]
  · simp only [firstIdxOf, WireEvent.isTokenEv] at hj
    rw [if_neg (by simp), Option.map_eq_some'] at hj
    obtain ⟨j', -, rfl⟩ := hj
    omega

theorem stepMessage_init_shape (env : TurnEnv) (st : StreamState)
    (d : Option String) :
    ((stepMessage env st (.system "init" d)).1 = [] ∧
      (stepMessage env st (.system "init" d)).2.2 ≠ none) ∨
    ∃ sid b tail, (stepMessage env st (.system "init" d)).1
      = .session sid env.finalCwd b :: tail := by
  simp only [stepMessage, if_pos rfl]
  rcases st.sessionId with _ | sc
  · rcases d with _ | sn
    · exact Or.inr ⟨none, true, _, rfl⟩
    · rcases hn : env.isNewSession
      · simp only [Bool.false_eq_true, if_false]
        exact Or.inr ⟨some sn, true, _, rfl⟩
      · simp only [if_true]
        rcases env.persistError with _ | e
        · exact Or.inr ⟨some sn, true, _, rfl⟩
        · exact Or.inl ⟨rfl, by simp⟩
  · exact Or.inr ⟨some sc, false, _, rfl⟩

end CcB

/-- Environment of a new-session turn in directory `/p` with message
`"hi"`. -/
def c2Env : CcB.TurnEnv := ⟨"/p", true, none, "hi", none, 10, none⟩

/-- A message stream whose first message is an assistant reply and whose
initialization message only arrives second. -/
def c2Input : CcB.TurnInput :=
  ⟨[.assistant [.text "hi"], .system "init" (some "s")], none⟩

/-- Claim C2 counterexample: on a stream whose assistant message precedes
the initialization message, the first `token` event (index 0) precedes the
first `session` event (index 2), so the claimed ordering fails. -/
theorem claim_C2_counterexample : ¬ CcB.c2Property c2Env [] c2Input := by
  intro h
  obtain ⟨i, hi, hlt⟩ := h.1 0 (by decide)
  have h2 : CcB.firstIdxOf CcB.WireEvent.isSessionEvKind
      (CcB.eventStream c2Env [] c2Input).1 = some 2 := by decide
  rw [h2, Option.some.injEq] at hi
  omega

/-- Claim C2 (amended): provided the stream's first agent message is an
initialization-class (system) message with subtype "init" — the shape the
agent protocol produces — the first `session` event precedes the first
`token` event; and for every stream whatsoever, exactly one terminal event
(`done` or `error`) is emitted, as the last event of the stream. -/
theorem claim_C2_amended (env : CcB.TurnEnv) (store0 : CcB.SessionStore)
    (input : CcB.TurnInput)
    (hhead : ∃ d, input.messages.head? = some (.system "init" d)) :
    CcB.c2Property env store0 input := by
  refine ⟨?_, CcB.eventStream_terminalLast env store0 input⟩
  obtain ⟨t, ht, hdec⟩ := CcB.eventStream_decomp env store0 input
  rw [hdec]
  obtain ⟨d, hd⟩ := hhead
  rcases hmsgs : input.messages with _ | ⟨m, ms⟩
  · rw [hmsgs] at hd
    exact absurd hd (by simp)
  · rw [hmsgs] at hd
    simp only [List.head?_cons, Option.some.injEq] at hd
    subst hd
    simp only [CcB.runMessages]
    rcases CcB.stepMessage_init_shape env ⟨env.resumeId, [], store0⟩ d with
      ⟨h0, herr⟩ | ⟨sid, b, tail, hsh⟩
    · rcases he : (CcB.stepMessage env ⟨env.resumeId, [], store0⟩
          (.system "init" d)).2.2 with _ | e
      · exact absurd he herr
      · simp only [he, h0, List.nil_append]
        apply CcB.no_token_precedes
        simp [CcB.firstIdxOf, CcB.isTokenEv_false_of_terminal t ht]
    · rcases he : (CcB.stepMessage env ⟨env.resumeId, [], store0⟩
          (.system "init" d)).2.2 with _ | e
      · simp only [he, hsh, List.cons_append]
        exact CcB.head_session_precedes _ sid env.finalCwd b
      · simp only [he, hsh, List.cons_append]
        exact CcB.head_session_precedes _ sid env.finalCwd b

/-- Claim C2 amended witness: the amended theorem applied to a concrete
stream that starts with the initialization message. -/
theorem claim_C2_amended_witness :
    CcB.c2Property c2Env []
      ⟨[.system "init" (some "s"), .assistant [.text "x"]], none⟩ :=
  claim_C2_amended c2Env [] _ ⟨some "s", rfl⟩

namespace CcB

/-- Whether a message carries any session identity the generator could
adopt (in its init data, its result field, or its structural projection). -/
def reportsNoId : SdkMessage → Bool
  | .system _ d => d.isNone
  | .assistant _ => true
  | .result sid _ => sid.isNone
  | .otherMsg p => p.isNone

theorem stepMessage_sessionId_none (env : TurnEnv) (st : StreamState)
    (m : SdkMessage) (hst : st.sessionId = none)
    (hm : reportsNoId m = true) :
    (stepMessage env st m).2.1.sessionId = none ∧
    (stepMessage env st m).2.2 = none := by
  cases m with
  | system subtype d =>
    rcases d with _ | s
    · constructor <;>
        · simp only [stepMessage]
          split <;> simp [mirrorStep, extractSessionIdFromPayload, hst]
    · simp [reportsNoId] at hm
  | assistant blocks =>
    constructor <;>
      simp [stepMessage, mirrorStep, extractSessionIdFromPayload, hst]
  | result rsid rres =>
    rcases rsid with _ | s
    · rcases hc : st.chunks with _ | ⟨c0, cs⟩ <;> rcases rres with _ | r <;>
        constructor <;>
        simp [stepMessage, mirrorStep, extractSessionIdFromPayload, hst, hc]
    · simp [reportsNoId] at hm
  | otherMsg p =>
    rcases p with _ | s
    · constructor <;>
        simp [stepMessage, mirrorStep, extractSessionIdFromPayload, hst]
    · simp [reportsNoId] at hm

theorem runMessages_sessionId_none (env : TurnEnv) (ms : List SdkMessage) :
    ∀ st, st.sessionId = none →
    (∀ m ∈ ms, reportsNoId m = true) →
    (runMessages env st ms).2.1.sessionId = none ∧
    (runMessages env st ms).2.2 = none := by
  induction ms with
  | nil => intro st h _; exact ⟨h, rfl⟩
  | cons m ms ih =>
    intro st h hall
    obtain ⟨h1, h2⟩ :=
      stepMessage_sessionId_none env st m h (hall m (List.mem_cons_self _ _))
    simp only [runMessages, h2]
    exact ih _ h1 (fun m' hm' => hall m' (List.mem_cons_of_mem _ hm'))

theorem isDoneEv_imp_isTerminal (e : WireEvent)
    (h : WireEvent.isDoneEv e = true) : WireEvent.isTerminal e = true := by
  cases e <;> simp_all [WireEvent.isDoneEv, WireEvent.isTerminal]

theorem no_done_append_error (runEvs : List WireEvent) (msg : String)
    (hrun : ∀ e ∈ runEvs, WireEvent.isTerminal e = false) :
    (∀ ev ∈ runEvs ++ [WireEvent.error msg],
      WireEvent.isDoneEv ev = false) ∧
    (runEvs ++ [WireEvent.error msg]).getLast?
      = some (.error msg) := by
  constructor
  · intro ev hev
    rcases List.mem_append.mp hev with h | h
    · cases hde : WireEvent.isDoneEv ev
      · rfl
      · have ht := isDoneEv_imp_isTerminal ev hde
        rw [hrun ev h] at ht
        exact absurd ht (by simp)
    · simp only [List.mem_singleton] at h
      subst h
      rfl
  · simp

end CcB

/-- Claim C4: (a) on a new conversation whose stream carries no session
identity in any message and whose agent raises no fault, the turn ends with
the terminal `error` event "Claude did not return session_id"
(ProtocolViolation) and no `done` event is ever emitted; (b) an exception
raised by the agent capability after streaming has begun is caught and
surfaced as the terminal `error` event, never as a transport fault, and no
`done` event is emitted; (c) likewise for an exception raised by
persistence. -/
theorem claim_C4_error_conversion (env : CcB.TurnEnv)
    (store0 : CcB.SessionStore) (input : CcB.TurnInput) :
    ((env.resumeId = none ∧
        (∀ m ∈ input.messages, CcB.reportsNoId m = true) ∧
        input.agentError = none) →
      (CcB.eventStream env store0 input).1.getLast?
          = some (.error "Claude did not return session_id") ∧
      ∀ ev ∈ (CcB.eventStream env store0 input).1,
        CcB.WireEvent.isDoneEv ev = false) ∧
    (∀ e, input.agentError = some e →
      (∀ ev ∈ (CcB.eventStream env store0 input).1,
        CcB.WireEvent.isDoneEv ev = false) ∧
      ∃ msg, (CcB.eventStream env store0 input).1.getLast?
        = some (.error msg)) ∧
    (∀ e, env.persistError = some e →
      (∀ ev ∈ (CcB.eventStream env store0 input).1,
        CcB.WireEvent.isDoneEv ev = false) ∧
      ∃ msg, (CcB.eventStream env store0 input).1.getLast?
        = some (.error msg)) := by
  have hrun := CcB.runMessages_no_terminal env input.messages
    ⟨env.resumeId, [], store0⟩
  refine ⟨?_, ?_, ?_⟩
  · rintro ⟨hres, hall, hag⟩
    have h0 := CcB.runMessages_sessionId_none env input.messages
      ⟨env.resumeId, [], store0⟩ hres hall
    simp only [CcB.eventStream, h0.1, h0.2, hag]
    obtain ⟨ha, hb⟩ := CcB.no_done_append_error _
      "Claude did not return session_id" hrun
    exact ⟨hb, ha⟩
  · intro e he
    rcases herr : (CcB.runMessages env ⟨env.resumeId, [], store0⟩
        input.messages).2.2 with _ | e'
    · simp only [CcB.eventStream, herr, he]
      obtain ⟨ha, hb⟩ := CcB.no_done_append_error _ e hrun
      exact ⟨ha, e, hb⟩
    · simp only [CcB.eventStream, herr]
      obtain ⟨ha, hb⟩ := CcB.no_done_append_error _ e' hrun
      exact ⟨ha, e', hb⟩
  · intro e he
    rcases herr : (CcB.runMessages env ⟨env.resumeId, [], store0⟩
        input.messages).2.2 with _ | e'
    · rcases hag : input.agentError with _ | e2
      · rcases hsid : (CcB.runMessages env ⟨env.resumeId, [], store0⟩
            input.messages).2.1.sessionId with _ | sid
        · simp only [CcB.eventStream, herr, hag, hsid]
          obtain ⟨ha, hb⟩ := CcB.no_done_append_error _
            "Claude did not return session_id" hrun
          exact ⟨ha, _, hb⟩
        · simp only [CcB.eventStream, herr, hag, hsid, he]
          obtain ⟨ha, hb⟩ := CcB.no_done_append_error _ e hrun
          exact ⟨ha, e, hb⟩
      · simp only [CcB.eventStream, herr, hag]
        obtain ⟨ha, hb⟩ := CcB.no_done_append_error _ e2 hrun
        exact ⟨ha, e2, hb⟩
    · simp only [CcB.eventStream, herr]
      obtain ⟨ha, hb⟩ := CcB.no_done_append_error _ e' hrun
      exact ⟨ha, e', hb⟩

/-- Claim C4 witness: the theorem applied to a concrete new-session turn
whose only message is an assistant reply carrying no identity. -/
theorem claim_C4_error_conversion_witness :
    (CcB.eventStream ⟨"/p", true, none, "t", none, 5, none⟩ []
        ⟨[.assistant [.text "x"]], none⟩).1.getLast?
      = some (.error "Claude did not return session_id") ∧
    ∀ ev ∈ (CcB.eventStream ⟨"/p", true, none, "t", none, 5, none⟩ []
        ⟨[.assistant [.text "x"]], none⟩).1,
      CcB.WireEvent.isDoneEv ev = false :=
  (claim_C4_error_conversion ⟨"/p", true, none, "t", none, 5, none⟩ []
      ⟨[.assistant [.text "x"]], none⟩).1
    ⟨rfl, by decide, rfl⟩

namespace CcB

theorem stepMessage_store_cases (env : TurnEnv) (st : StreamState)
    (m : SdkMessage) :
    (stepMessage env st m).2.1.store = st.store ∨
    ∃ sid, (stepMessage env st m).2.1.store
      = persistSessionMetadata st.store sid env.newTitle env.finalCwd
          env.now env.now := by
  cases m with
  | system subtype d =>
    by_cases hs : subtype = "init"
    · rcases hsid : st.sessionId with _ | sc
      · rcases d with _ | sn
        · left
          simp [stepMessage, hs, hsid, mirrorStep]
        · rcases hn : env.isNewSession
          · left
            simp [stepMessage, hs, hsid, hn, mirrorStep]
          · rcases hp : env.persistError with _ | e
            · right
              exact ⟨sn, by simp [stepMessage, hs, hsid, hn, hp, mirrorStep]⟩
            · left
              simp [stepMessage, hs, hsid, hn, hp, mirrorStep]
      · left
        simp [stepMessage, hs, hsid, mirrorStep]
    · left
      simp [stepMessage, hs, mirrorStep]
  | assistant blocks =>
    left
    simp [stepMessage, mirrorStep]
  | result rsid rres =>
    left
    rcases hsid : st.sessionId with _ | sc <;>
      rcases rres with _ | r <;>
      rcases hc : st.chunks with _ | ⟨c0, cs⟩ <;>
      simp [stepMessage, mirrorStep, hsid, hc]
  | otherMsg p =>
    left
    simp [stepMessage, mirrorStep]

theorem stepMessage_store_mono (env : TurnEnv) (st : StreamState)
    (m : SdkMessage) (k : String) (h : (storeGet st.store k).isSome) :
    (storeGet (stepMessage env st m).2.1.store k).isSome := by
  rcases stepMessage_store_cases env st m with hc | ⟨sid, hc⟩ <;> rw [hc]
  · exact h
  · simp only [persistSessionMetadata]
    exact storeGet_storeUpsert_isSome _ _ _ _ h

theorem runMessages_store_mono (env : TurnEnv) (ms : List SdkMessage) :
    ∀ st k, (storeGet st.store k).isSome →
    (storeGet (runMessages env st ms).2.1.store k).isSome := by
  induction ms with
  | nil => intro st k h; exact h
  | cons m ms ih =>
    intro st k h
    simp only [runMessages]
    rcases he : (stepMessage env st m).2.2 with _ | e
    · simp only [he]
      exact ih _ _ (stepMessage_store_mono env st m k h)
    · simp only [he]
      exact stepMessage_store_mono env st m k h

end CcB

/-- Claim C5: on a new conversation (is_new, no prior identity), the moment
an initialization-class message reports identity `sid`, the generator's
persistence step succeeds without fault, the store immediately holds a
record for `sid` — exactly {identity, derived title, effective directory,
current time as both created and updated} when the identity was absent —
and the record is still present after any continuation of the stream, so a
concurrent reader can discover the conversation before the turn finishes. -/
theorem claim_C5_midstream_persist (env : CcB.TurnEnv)
    (stPre : CcB.StreamState) (sid : String)
    (hnew : env.isNewSession = true) (hpe : env.persistError = none)
    (hsid : stPre.sessionId = none) :
    (CcB.stepMessage env stPre (.system "init" (some sid))).2.2 = none ∧
    CcB.storeGet (CcB.stepMessage env stPre
        (.system "init" (some sid))).2.1.store sid
      = some (match CcB.storeGet stPre.store sid with
        | none => ⟨env.newTitle, env.finalCwd, env.now, env.now⟩
        | some o =>
          ⟨env.newTitle, env.finalCwd,
            if env.now < o.createdAt then env.now else o.createdAt,
            if env.now > o.updatedAt then env.now else o.updatedAt⟩) ∧
    ∀ post, (CcB.storeGet (CcB.runMessages env
        (CcB.stepMessage env stPre (.system "init" (some sid))).2.1
        post).2.1.store sid).isSome := by
  have hred : (CcB.stepMessage env stPre (.system "init" (some sid))).2.1.store
      = CcB.persistSessionMetadata stPre.store sid env.newTitle env.finalCwd
          env.now env.now := by
    simp [CcB.stepMessage, hsid, hnew, hpe, CcB.mirrorStep]
  refine ⟨?_, ?_, ?_⟩
  · simp [CcB.stepMessage, hsid, hnew, hpe, CcB.mirrorStep]
  · rw [hred, CcB.persistSessionMetadata, CcB.storeGet_storeUpsert_self]
  · intro post
    apply CcB.runMessages_store_mono
    rw [hred]
    simp only [CcB.persistSessionMetadata]
    rw [CcB.storeGet_storeUpsert_self]
    rfl

/-- Claim C5 witness: the theorem applied to a concrete fresh state; the
record is present immediately and still present after a subsequent
assistant message. -/
theorem claim_C5_midstream_persist_witness :
    CcB.storeGet (CcB.stepMessage ⟨"/p", true, none, "hi", none, 10, none⟩
        ⟨none, [], []⟩ (.system "init" (some "s"))).2.1.store "s"
      = some ⟨"hi", "/p", 10, 10⟩ ∧
    (CcB.storeGet (CcB.runMessages ⟨"/p", true, none, "hi", none, 10, none⟩
        (CcB.stepMessage ⟨"/p", true, none, "hi", none, 10, none⟩
          ⟨none, [], []⟩ (.system "init" (some "s"))).2.1
        [.assistant [.text "x"]]).2.1.store "s").isSome :=
  ⟨(claim_C5_midstream_persist ⟨"/p", true, none, "hi", none, 10, none⟩
      ⟨none, [], []⟩ "s" rfl rfl rfl).2.1,
   (claim_C5_midstream_persist ⟨"/p", true, none, "hi", none, 10, none⟩
      ⟨none, [], []⟩ "s" rfl rfl rfl).2.2 [.assistant [.text "x"]]⟩

namespace CcB

/-- The texts of the `token` events of a stream. -/
def tokenTextsOf (evs : List WireEvent) : List String :=
  evs.filterMap (fun e => match e with
    | .token _ s => some s
    | _ => none)

/-- The final result strings carried by the result messages of a stream. -/
def resultStringsOf (ms : List SdkMessage) : List String :=
  ms.filterMap (fun m => match m with
    | .result _ (some r) => some r
    | _ => none)

def isResultMsg : SdkMessage → Bool
  | .result _ _ => true
  | _ => false

def isAssistantMsg : SdkMessage → Bool
  | .assistant _ => true
  | _ => false

theorem tokenTextsOf_append (a b : List WireEvent) :
    tokenTextsOf (a ++ b) = tokenTextsOf a ++ tokenTextsOf b :=
  List.filterMap_append a b _

theorem tokenTextsOf_terminal (t : WireEvent)
    (ht : WireEvent.isTerminal t = true) : tokenTextsOf [t] = [] := by
  cases t <;> simp_all [WireEvent.isTerminal, tokenTextsOf]

theorem stepMessage_token_nonempty (env : TurnEnv) (st : StreamState)
    (m : SdkMessage) :
    ∀ sid s, WireEvent.token sid s ∈ (stepMessage env st m).1 → s ≠ "" := by
  intro sid s he
  cases m with
  | system subtype d =>
    simp only [stepMessage] at he
    split at he
    · split at he
      · split at he
        · split at he
          · split at he
            · simp at he
            · simp [mirrorStep] at he
          · simp [mirrorStep] at he
        · simp [mirrorStep] at he
      · simp [mirrorStep] at he
    · simp [mirrorStep] at he
  | assistant blocks =>
    simp only [stepMessage, List.mem_append] at he
    rcases he with he | he
    · obtain ⟨s', heq, hs'⟩ :=
        processTokenBlocks_events_token st.sessionId blocks _ he
      rw [WireEvent.token.injEq] at heq
      rw [heq.2]
      exact hs'
    · simp [mirrorStep] at he
  | result rsid rres =>
    simp only [stepMessage, List.mem_append] at he
    rcases he with he | he
    · split at he
      · simp at he
      · simp at he
    · simp [mirrorStep] at he
  | otherMsg p =>
    simp [stepMessage, mirrorStep] at he

theorem runMessages_token_nonempty (env : TurnEnv) (ms : List SdkMessage) :
    ∀ st sid s, WireEvent.token sid s ∈ (runMessages env st ms).1 →
      s ≠ "" := by
  induction ms with
  | nil => intro st sid s he; simp [runMessages] at he
  | cons m ms ih =>
    intro st sid s he
    simp only [runMessages] at he
    split at he
    · exact stepMessage_token_nonempty env st m sid s he
    · rcases List.mem_append.mp he with he | he
      · exact stepMessage_token_nonempty env st m sid s he
      · exact ih _ sid s he

theorem isTokenEv_true_of_mem_token (sid : Option String) (s : String) :
    WireEvent.isTokenEv (.token sid s) = true := rfl

theorem eventStream_token_nonempty (env : TurnEnv) (store0 : SessionStore)
    (input : TurnInput) :
    ∀ sid s, WireEvent.token sid s ∈ (eventStream env store0 input).1 →
      s ≠ "" := by
  intro sid s he
  obtain ⟨t, ht, hdec⟩ := eventStream_decomp env store0 input
  rw [hdec] at he
  rcases List.mem_append.mp he with he | he
  · exact runMessages_token_nonempty env input.messages _ sid s he
  · simp only [List.mem_singleton] at he
    rw [← he] at ht
    simp [WireEvent.isTerminal] at ht

theorem processTokenBlocks_tokenTexts (sid : Option String)
    (bs : List ContentBlock) :
    tokenTextsOf (processTokenBlocks sid bs).1
      = (processTokenBlocks sid bs).2 := by
  induction bs with
  | nil => rfl
  | cons b bs ih =>
    cases b with
    | text s =>
      simp only [processTokenBlocks]
      by_cases hs : s = ""
      · rw [if_pos hs]
        exact ih
      · rw [if_neg hs]
        simp only [tokenTextsOf, List.filterMap_cons]
        rw [← ih]
        rfl
    | other => exact ih

theorem stepMessage_chunks_sync (env : TurnEnv) (st : StreamState)
    (m : SdkMessage) (hm : isResultMsg m = false) :
    (stepMessage env st m).2.1.chunks
      = st.chunks ++ tokenTextsOf (stepMessage env st m).1 := by
  cases m with
  | system subtype d =>
    by_cases hs : subtype = "init"
    · rcases hsid : st.sessionId with _ | sc
      · rcases d with _ | sn
        · simp [stepMessage, hs, hsid, mirrorStep, tokenTextsOf]
        · rcases hn : env.isNewSession
          · simp [stepMessage, hs, hsid, hn, mirrorStep, tokenTextsOf]
          · rcases hp : env.persistError with _ | e <;>
              simp [stepMessage, hs, hsid, hn, hp, mirrorStep, tokenTextsOf]
      · simp [stepMessage, hs, hsid, mirrorStep, tokenTextsOf]
    · simp [stepMessage, hs, mirrorStep, tokenTextsOf]
  | assistant blocks =>
    simp only [stepMessage, mirrorStep, tokenTextsOf_append]
    rw [processTokenBlocks_tokenTexts]
    simp [tokenTextsOf]
  | result rsid rres => simp [isResultMsg] at hm
  | otherMsg p => simp [stepMessage, mirrorStep, tokenTextsOf]

theorem runMessages_chunks_sync (env : TurnEnv) (ms : List SdkMessage) :
    ∀ st, (∀ m ∈ ms, isResultMsg m = false) →
    (runMessages env st ms).2.1.chunks
      = st.chunks ++ tokenTextsOf (runMessages env st ms).1 := by
  induction ms with
  | nil => intro st _; simp [runMessages, tokenTextsOf]
  | cons m ms ih =>
    intro st hall
    have hstep := stepMessage_chunks_sync env st m (hall m (List.mem_cons_self _ _))
    simp only [runMessages]
    rcases he : (stepMessage env st m).2.2 with _ | e
    · simp only [he]
      rw [ih _ (fun m' hm' => hall m' (List.mem_cons_of_mem _ hm')), hstep,
        tokenTextsOf_append, List.append_assoc]
    · simp only [he]
      exact hstep

theorem resultStrings_mem_cons (m : SdkMessage) (ms : List SdkMessage)
    (r : String) (h : r ∈ resultStringsOf ms) :
    r ∈ resultStringsOf (m :: ms) := by
  simp only [resultStringsOf, List.filterMap_cons]
  split
  · exact h
  · exact List.mem_cons_of_mem _ h

theorem resultStrings_mem_self (rsid : Option String) (r : String)
    (ms : List SdkMessage) :
    r ∈ resultStringsOf (.result rsid (some r) :: ms) := by
  simp only [resultStringsOf, List.filterMap_cons]
  exact List.mem_cons_self _ _

theorem stepMessage_chunks_result (env : TurnEnv) (st : StreamState)
    (m : SdkMessage) (hm : isAssistantMsg m = false) :
    tokenTextsOf (stepMessage env st m).1 = [] ∧
    ((stepMessage env st m).2.1.chunks = st.chunks ∨
      (st.chunks = [] ∧ ∃ rsid r, m = .result rsid (some r) ∧
        (stepMessage env st m).2.1.chunks = [r])) := by
  cases m with
  | system subtype d =>
    constructor
    · by_cases hs : subtype = "init"
      · rcases hsid : st.sessionId with _ | sc
        · rcases d with _ | sn
          · simp [stepMessage, hs, hsid, mirrorStep, tokenTextsOf]
          · rcases hn : env.isNewSession
            · simp [stepMessage, hs, hsid, hn, mirrorStep, tokenTextsOf]
            · rcases hp : env.persistError with _ | e <;>
                simp [stepMessage, hs, hsid, hn, hp, mirrorStep, tokenTextsOf]
        · simp [stepMessage, hs, hsid, mirrorStep, tokenTextsOf]
      · simp [stepMessage, hs, mirrorStep, tokenTextsOf]
    · left
      by_cases hs : subtype = "init"
      · rcases hsid : st.sessionId with _ | sc
        · rcases d with _ | sn
          · simp [stepMessage, hs, hsid, mirrorStep]
          · rcases hn : env.isNewSession
            · simp [stepMessage, hs, hsid, hn, mirrorStep]
            · rcases hp : env.persistError with _ | e <;>
                simp [stepMessage, hs, hsid, hn, hp, mirrorStep]
        · simp [stepMessage, hs, hsid, mirrorStep]
      · simp [stepMessage, hs, mirrorStep]
  | assistant blocks => simp [isAssistantMsg] at hm
  | result rsid rres =>
    constructor
    · rcases hsid : st.sessionId with _ | sc <;>
        rcases rres with _ | r <;>
        rcases hc : st.chunks with _ | ⟨c0, cs⟩ <;>
        simp [stepMessage, mirrorStep, hsid, hc, tokenTextsOf]
    · rcases rres with _ | r
      · left
        rcases hsid : st.sessionId with _ | sc <;>
          rcases hc : st.chunks with _ | ⟨c0, cs⟩ <;>
          simp [stepMessage, mirrorStep, hsid, hc]
      · rcases hc : st.chunks with _ | ⟨c0, cs⟩
        · right
          refine ⟨rfl, rsid, r, rfl, ?_⟩
          rcases hsid : st.sessionId with _ | sc <;>
            simp [stepMessage, mirrorStep, hsid, hc]
        · left
          rcases hsid : st.sessionId with _ | sc <;>
            simp [stepMessage, mirrorStep, hsid, hc]
  | otherMsg p =>
    exact ⟨by simp [stepMessage, mirrorStep, tokenTextsOf],
      Or.inl (by simp [stepMessage, mirrorStep])⟩

theorem runMessages_chunks_result (env : TurnEnv) (ms : List SdkMessage) :
    ∀ st, (∀ m ∈ ms, isAssistantMsg m = false) →
    tokenTextsOf (runMessages env st ms).1 = [] ∧
    ((runMessages env st ms).2.1.chunks = st.chunks ∨
      (st.chunks = [] ∧ ∃ r ∈ resultStringsOf ms,
        (runMessages env st ms).2.1.chunks = [r])) := by
  induction ms with
  | nil => intro st _; exact ⟨rfl, Or.inl rfl⟩
  | cons m ms ih =>
    intro st hall
    obtain ⟨htk, hch⟩ :=
      stepMessage_chunks_result env st m (hall m (List.mem_cons_self _ _))
    simp only [runMessages]
    rcases he : (stepMessage env st m).2.2 with _ | e
    · simp only [he]
      obtain ⟨htk2, hch2⟩ := ih (stepMessage env st m).2.1
        (fun m' hm' => hall m' (List.mem_cons_of_mem _ hm'))
      constructor
      · rw [tokenTextsOf_append, htk, htk2]
        rfl
      · rcases hch with hkeep | ⟨hemp, rsid, r, hm', hone⟩
        · rcases hch2 with hkeep2 | ⟨hemp2, r', hr', hone2⟩
          · left
            rw [hkeep2, hkeep]
          · right
            rw [hkeep] at hemp2
            exact ⟨hemp2, r', resultStrings_mem_cons m ms r' hr', hone2⟩
        · rcases hch2 with hkeep2 | ⟨hemp2, r', hr', hone2⟩
          · right
            subst hm'
            exact ⟨hemp, r, resultStrings_mem_self rsid r ms,
              by rw [hkeep2, hone]⟩
          · rw [hone] at hemp2
            exact absurd hemp2 (by simp)
    · simp only [he]
      rcases hch with hkeep | ⟨hemp, rsid, r, hm', hone⟩
      · exact ⟨htk, Or.inl hkeep⟩
      · subst hm'
        exact ⟨htk, Or.inr ⟨hemp, r, resultStrings_mem_self rsid r ms, hone⟩⟩

theorem runMessages_append (env : TurnEnv) (ms1 : List SdkMessage) :
    ∀ st ms2, (runMessages env st ms1).2.2 = none →
    runMessages env st (ms1 ++ ms2)
      = ((runMessages env st ms1).1
          ++ (runMessages env (runMessages env st ms1).2.1 ms2).1,
        (runMessages env (runMessages env st ms1).2.1 ms2).2) := by
  induction ms1 with
  | nil => intro st ms2 _; simp [runMessages]
  | cons m ms ih =>
    intro st ms2 h
    simp only [runMessages, List.cons_append, List.append_eq] at h ⊢
    rcases he : (stepMessage env st m).2.2 with _ | e
    · simp only [he] at h ⊢
      rw [ih _ _ h]
      simp [List.append_assoc]
    · simp only [he] at h
      exact absurd h (by simp)

theorem runMessages_append_err (env : TurnEnv) (ms1 : List SdkMessage) :
    ∀ st ms2 e, (runMessages env st ms1).2.2 = some e →
    runMessages env st (ms1 ++ ms2) = runMessages env st ms1 := by
  induction ms1 with
  | nil => intro st ms2 e h; simp [runMessages] at h
  | cons m ms ih =>
    intro st ms2 e h
    simp only [runMessages, List.cons_append, List.append_eq] at h ⊢
    rcases he : (stepMessage env st m).2.2 with _ | e'
    · simp only [he] at h ⊢
      rw [ih _ _ _ h]
    · simp only [he]

theorem done_not_mem_run_error (runEvs : List WireEvent) (msg : String)
    (sid cw : String) (L : Nat)
    (hrun : ∀ e ∈ runEvs, WireEvent.isTerminal e = false)
    (h : WireEvent.done sid cw L ∈ runEvs ++ [WireEvent.error msg]) :
    False := by
  rcases List.mem_append.mp h with h | h
  · have := hrun _ h
    simp [WireEvent.isTerminal] at this
  · simp at h

theorem eventStream_done_inv (env : TurnEnv) (store0 : SessionStore)
    (input : TurnInput) (sid cw : String) (L : Nat)
    (h : WireEvent.done sid cw L ∈ (eventStream env store0 input).1) :
    (runMessages env ⟨env.resumeId, [], store0⟩ input.messages).2.2 = none ∧
    L = (String.join (runMessages env ⟨env.resumeId, [], store0⟩
        input.messages).2.1.chunks).length := by
  have hrun := runMessages_no_terminal env input.messages
    ⟨env.resumeId, [], store0⟩
  rcases herr : (runMessages env ⟨env.resumeId, [], store0⟩
      input.messages).2.2 with _ | e
  · rcases hag : input.agentError with _ | e2
    · rcases hsid : (runMessages env ⟨env.resumeId, [], store0⟩
          input.messages).2.1.sessionId with _ | sid'
      · simp only [eventStream, herr, hag, hsid] at h
        exact absurd h (fun h => done_not_mem_run_error _ _ _ _ _ hrun h)
      · rcases hp : env.persistError with _ | e3
        · simp only [eventStream, herr, hag, hsid, hp] at h
          rcases List.mem_append.mp h with h | h
          · have := hrun _ h
            simp [WireEvent.isTerminal] at this
          · simp only [List.mem_singleton, WireEvent.done.injEq] at h
            exact ⟨rfl, h.2.2⟩
        · simp only [eventStream, herr, hag, hsid, hp] at h
          exact absurd h (fun h => done_not_mem_run_error _ _ _ _ _ hrun h)
    · simp only [eventStream, herr, hag] at h
      exact absurd h (fun h => done_not_mem_run_error _ _ _ _ _ hrun h)
  · simp only [eventStream, herr] at h
    exact absurd h (fun h => done_not_mem_run_error _ _ _ _ _ hrun h)

/-- The fragment-accounting property of claim C9 for one turn. -/
def c9Property (env : TurnEnv) (store0 : SessionStore)
    (input : TurnInput) : Prop :=
  (∀ sid s, WireEvent.token sid s ∈ (eventStream env store0 input).1 →
    s ≠ "") ∧
  (∀ sid cw L, WireEvent.done sid cw L ∈ (eventStream env store0 input).1 →
    L = (String.join (tokenTextsOf (eventStream env store0 input).1)).length ∨
    (tokenTextsOf (eventStream env store0 input).1 = [] ∧
      ∃ r ∈ resultStringsOf input.messages, L = r.length))

end CcB

/-- Environment of a new-session turn in directory `/p`. -/
def c9Env : CcB.TurnEnv := ⟨"/p", true, none, "hi", none, 10, none⟩

/-- A stream in which the result message (carrying final result "r")
arrives while the buffer is empty, and a reply-content message follows. -/
def c9Input : CcB.TurnInput :=
  ⟨[.result (some "s") (some "r"), .assistant [.text "x"]], none⟩

/-- Claim C9 counterexample: the result string "r" is adopted into the
empty buffer, then the later token "x" is also accumulated; the `done`
event reports reply-length 2, which neither equals the length of the
concatenated token texts (1) nor is the sole-result-fragment case (a token
was emitted), so the claimed accounting fails as stated. -/
theorem claim_C9_counterexample : ¬ CcB.c9Property c9Env [] c9Input := by
  intro h
  have hd := h.2 "s" "/p" 2 (by decide)
  exact absurd hd (by decide)

/-- Claim C9 (amended): every emitted `token` event carries a non-empty
fragment; and provided every reply-content (assistant) message precedes
every result message — the shape the agent protocol produces — the `done`
event's reply-length equals the length of the concatenation of the token
texts, except that when no token was emitted and a result message carried a
final result string, that string is the sole reply fragment.  (In general a
result string adopted into an empty buffer counts as a fragment alongside
any later token texts.) -/
theorem claim_C9_amended (env : CcB.TurnEnv) (store0 : CcB.SessionStore)
    (ms1 ms2 : List CcB.SdkMessage) (aerr : Option String)
    (h1 : ∀ m ∈ ms1, CcB.isResultMsg m = false)
    (h2 : ∀ m ∈ ms2, CcB.isAssistantMsg m = false) :
    CcB.c9Property env store0 ⟨ms1 ++ ms2, aerr⟩ := by
  constructor
  · exact CcB.eventStream_token_nonempty env store0 _
  · intro sid cw L hdone
    obtain ⟨herr, hL⟩ :=
      CcB.eventStream_done_inv env store0 _ sid cw L hdone
    rcases herr1 : (CcB.runMessages env ⟨env.resumeId, [], store0⟩ ms1).2.2
        with _ | e
    · have happ := CcB.runMessages_append env ms1
        ⟨env.resumeId, [], store0⟩ ms2 herr1
      obtain ⟨t, ht, hdec⟩ :=
        CcB.eventStream_decomp env store0 ⟨ms1 ++ ms2, aerr⟩
      have hA := CcB.runMessages_chunks_sync env ms1
        ⟨env.resumeId, [], store0⟩ h1
      obtain ⟨htk2, hch2⟩ := CcB.runMessages_chunks_result env ms2
        (CcB.runMessages env ⟨env.resumeId, [], store0⟩ ms1).2.1 h2
      have htok : CcB.tokenTextsOf
          (CcB.eventStream env store0 ⟨ms1 ++ ms2, aerr⟩).1
          = CcB.tokenTextsOf (CcB.runMessages env
              ⟨env.resumeId, [], store0⟩ ms1).1 := by
        rw [hdec]
        rw [CcB.tokenTextsOf_append, CcB.tokenTextsOf_terminal t ht,
          List.append_nil]
        have : (CcB.runMessages env ⟨env.resumeId, [], store0⟩
            (ms1 ++ ms2)).1
            = (CcB.runMessages env ⟨env.resumeId, [], store0⟩ ms1).1
              ++ (CcB.runMessages env (CcB.runMessages env
                ⟨env.resumeId, [], store0⟩ ms1).2.1 ms2).1 := by
          rw [happ]
        rw [this, CcB.tokenTextsOf_append, htk2, List.append_nil]
      have hchunksF : (CcB.runMessages env ⟨env.resumeId, [], store0⟩
          (ms1 ++ ms2)).2.1.chunks
          = (CcB.runMessages env (CcB.runMessages env
              ⟨env.resumeId, [], store0⟩ ms1).2.1 ms2).2.1.chunks := by
        rw [happ]
      rw [hchunksF] at hL
      have hA' : (CcB.runMessages env ⟨env.resumeId, [], store0⟩
          ms1).2.1.chunks
          = CcB.tokenTextsOf (CcB.runMessages env
              ⟨env.resumeId, [], store0⟩ ms1).1 := by
        rw [hA]
        rfl
      rcases hch2 with hkeep | ⟨hemp, r, hrmem, hcf⟩
      · left
        rw [htok, hL, hkeep, hA']
      · right
        constructor
        · rw [htok, ← hA', hemp]
        · refine ⟨r, ?_, ?_⟩
          · simp only [CcB.resultStringsOf, List.filterMap_append,
              List.mem_append]
            right
            exact hrmem
          · rw [hL, hcf]
            simp [String.join]
    · have happ := CcB.runMessages_append_err env ms1
        ⟨env.resumeId, [], store0⟩ ms2 e herr1
      rw [happ, herr1] at herr
      exact absurd herr (by simp)

/-- Claim C9 amended witness: the amended theorem applied to a concrete
stream whose assistant message precedes its result message. -/
theorem claim_C9_amended_witness :
    CcB.c9Property c9Env []
      ⟨[.assistant [.text "ok"]] ++ [.result (some "s") (some "fin")],
        none⟩ :=
  claim_C9_amended c9Env [] [.assistant [.text "ok"]]
    [.result (some "s") (some "fin")] none (by decide) (by decide)

namespace CcB

/-- The two rejection classes of the /chat route before streaming begins:
HTTP 400 (InvalidRequest) and HTTP 404 (NotFound). -/
inductive ChatError where
  | invalidRequest (detail : String)
  | notFound (detail : String)
deriving DecidableEq, Repr

/-- The filesystem facts the resolver consults: whether a path names an
existing directory (`Path.is_dir`) and canonicalization (`Path.resolve`). -/
structure Filesystem where
  isDir : String → Bool
  resolve : String → String

/-- The fields of a /chat request body the resolver reads. -/
structure ChatRequest where
  sessionId : Option String
  cwd : Option String
  message : String

/-- The session-resolution prologue of the /chat route
(app_factory.py:166-197): for a new session a working directory is
mandatory, must be non-empty and name an existing directory, and is
canonicalized; for a resumed session the identity must be on record and a
supplied directory must canonicalize to the same path as the stored one,
the stored directory becoming effective. -/
def resolveChatSession (fs : Filesystem) (store : SessionStore)
    (req : ChatRequest) :
    Except ChatError (String × Bool × Option SessionRecord) :=
  match req.sessionId with
  | none =>
    match req.cwd with
    | none =>
      .error (.invalidRequest "cwd is required when starting a new session")
    | some c =>
      if c = "" then
        .error (.invalidRequest "cwd is required when starting a new session")
      else if fs.isDir c then .ok (fs.resolve c, true, none)
      else
        .error (.invalidRequest
          ("cwd does not exist or is not a directory: " ++ c))
  | some sid =>
    match storeGet store sid with
    | none => .error (.notFound "Session not found")
    | some sessionRec =>
      match req.cwd with
      | some c =>
        if c ≠ "" ∧ fs.resolve c ≠ fs.resolve sessionRec.cwd then
          .error (.invalidRequest "cwd mismatch for existing session")
        else .ok (sessionRec.cwd, false, some sessionRec)
      | none => .ok (sessionRec.cwd, false, some sessionRec)

/-- The whole /chat route (app_factory.py:157-343): resolve first — a
rejection produces no wire events at all — then stream the turn with the
resolved directory, is-new flag, and stored title. -/
def chatRoute (fs : Filesystem) (store0 : SessionStore) (req : ChatRequest)
    (now : Nat) (persistError : Option String) (input : TurnInput) :
    Except ChatError (List WireEvent × SessionStore) :=
  match resolveChatSession fs store0 req with
  | .error e => .error e
  | .ok r =>
    .ok (eventStream
      ⟨r.1, r.2.1, req.sessionId, newSessionTitle req.message,
        (r.2.2).map (fun s => s.title), now, persistError⟩
      store0 input)

end CcB

/-- Claim C3: the /chat resolver rejects before any wire event is emitted —
with InvalidRequest when no identity is supplied and the working directory
is missing, empty, or not an existing directory; with NotFound when the
supplied identity is not on record; with InvalidRequest ("cwd mismatch")
when a supplied directory does not canonicalize to the stored one;
otherwise the effective directory is the canonicalized input for a new
session and the stored one for a resumed session. -/
theorem claim_C3_resolver (fs : CcB.Filesystem) (store : CcB.SessionStore)
    (req : CcB.ChatRequest) (now : Nat) (perr : Option String)
    (input : CcB.TurnInput) :
    (req.sessionId = none → (req.cwd = none ∨ req.cwd = some "") →
      CcB.resolveChatSession fs store req
        = .error (.invalidRequest
            "cwd is required when starting a new session") ∧
      CcB.chatRoute fs store req now perr input
        = .error (.invalidRequest
            "cwd is required when starting a new session")) ∧
    (∀ c, req.sessionId = none → req.cwd = some c → c ≠ "" →
      fs.isDir c = false →
      CcB.resolveChatSession fs store req
        = .error (.invalidRequest
            ("cwd does not exist or is not a directory: " ++ c)) ∧
      CcB.chatRoute fs store req now perr input
        = .error (.invalidRequest
            ("cwd does not exist or is not a directory: " ++ c))) ∧
    (∀ c, req.sessionId = none → req.cwd = some c → c ≠ "" →
      fs.isDir c = true →
      CcB.resolveChatSession fs store req
        = .ok (fs.resolve c, true, none)) ∧
    (∀ sid, req.sessionId = some sid → CcB.storeGet store sid = none →
      CcB.resolveChatSession fs store req
        = .error (.notFound "Session not found") ∧
      CcB.chatRoute fs store req now perr input
        = .error (.notFound "Session not found")) ∧
    (∀ sid sessionRec c, req.sessionId = some sid →
      CcB.storeGet store sid = some sessionRec → req.cwd = some c →
      c ≠ "" → fs.resolve c ≠ fs.resolve sessionRec.cwd →
      CcB.resolveChatSession fs store req
        = .error (.invalidRequest "cwd mismatch for existing session") ∧
      CcB.chatRoute fs store req now perr input
        = .error (.invalidRequest "cwd mismatch for existing session")) ∧
    (∀ sid sessionRec, req.sessionId = some sid →
      CcB.storeGet store sid = some sessionRec →
      (req.cwd = none ∨ ∃ c, req.cwd = some c ∧
        (c = "" ∨ fs.resolve c = fs.resolve sessionRec.cwd)) →
      CcB.resolveChatSession fs store req
        = .ok (sessionRec.cwd, false, some sessionRec)) := by
  refine ⟨?_, ?_, ?_, ?_, ?_, ?_⟩
  · intro hs hc
    have hres : CcB.resolveChatSession fs store req
        = .error (.invalidRequest
            "cwd is required when starting a new session") := by
      rcases hc with hc | hc <;>
        simp [CcB.resolveChatSession, hs, hc]
    exact ⟨hres, by simp [CcB.chatRoute, hres]⟩
  · intro c hs hc hne hdir
    have hres : CcB.resolveChatSession fs store req
        = .error (.invalidRequest
            ("cwd does not exist or is not a directory: " ++ c)) := by
      simp [CcB.resolveChatSession, hs, hc, hne, hdir]
    exact ⟨hres, by simp [CcB.chatRoute, hres]⟩
  · intro c hs hc hne hdir
    simp [CcB.resolveChatSession, hs, hc, hne, hdir]
  · intro sid hs hget
    have hres : CcB.resolveChatSession fs store req
        = .error (.notFound "Session not found") := by
      simp [CcB.resolveChatSession, hs, hget]
    exact ⟨hres, by simp [CcB.chatRoute, hres]⟩
  · intro sid sessionRec c hs hget hc hne hmm
    have hres : CcB.resolveChatSession fs store req
        = .error (.invalidRequest "cwd mismatch for existing session") := by
      simp only [CcB.resolveChatSession, hs, hget, hc]
      rw [if_pos ⟨hne, hmm⟩]
    exact ⟨hres, by simp [CcB.chatRoute, hres]⟩
  · intro sid sessionRec hs hget hor
    rcases hor with hc | ⟨c, hc, heq⟩
    · simp [CcB.resolveChatSession, hs, hget, hc]
    · simp only [CcB.resolveChatSession, hs, hget, hc]
      rcases heq with heq | heq
      · rw [if_neg (by intro h; exact h.1 heq)]
      · rw [if_neg (by intro h; exact h.2 heq)]

/-- Claim C3 witness: the resolver theorem applied to a concrete resume
request whose identity is not on record — rejected with NotFound and no
wire events. -/
theorem claim_C3_resolver_witness :
    CcB.resolveChatSession ⟨fun _ => false, fun s => s⟩ []
        ⟨some "X", none, "m"⟩
      = .error (.notFound "Session not found") ∧
    CcB.chatRoute ⟨fun _ => false, fun s => s⟩ [] ⟨some "X", none, "m"⟩
        0 none ⟨[], none⟩
      = .error (.notFound "Session not found") :=
  (claim_C3_resolver ⟨fun _ => false, fun s => s⟩ [] ⟨some "X", none, "m"⟩
      0 none ⟨[], none⟩).2.2.2.1 "X" rfl rfl

namespace CcB

/- JSON values as Python's json module round-trips them for the
user-settings store: null, booleans, integers, strings, arrays, objects
(key order preserved).  Floats are outside this model. -/
mutual
inductive Json where
  | null : Json
  | bool (b : Bool) : Json
  | num (n : Int) : Json
  | str (s : String) : Json
  | arr (xs : JsonList) : Json
  | obj (kvs : JsonObj) : Json
inductive JsonList where
  | nil : JsonList
  | cons (hd : Json) (tl : JsonList) : JsonList
inductive JsonObj where
  | objnil : JsonObj
  | objcons (key : String) (val : Json) (tl : JsonObj) : JsonObj
end

def digitToChar (d : Nat) : Char := Char.ofNat (48 + d)

/-- Decimal digits of a natural number, most significant first. -/
def natChars (n : Nat) : List Char :=
  if n < 10 then [digitToChar n]
  else natChars (n / 10) ++ [digitToChar (n % 10)]
termination_by n
decreasing_by exact Nat.div_lt_self (by omega) (by omega)

def intChars (n : Int) : List Char :=
  if n < 0 then '-' :: natChars n.natAbs else natChars n.toNat

def hexChar (d : Nat) : Char :=
  if d < 10 then Char.ofNat (48 + d) else Char.ofNat (87 + d)

/-- The escape `json.dumps` (ensure_ascii=False) applies to one character
of a string: double quote and backslash are escaped, the named control
characters get two-character escapes, other control characters get a
`\u00xx` escape, and everything else is emitted verbatim. -/
def escapeJsonChar (c : Char) : List Char :=
  if c = '"' then ['\\', '"']
  else if c = '\\' then ['\\', '\\']
  else if c = '\x08' then ['\\', 'b']
  else if c = '\x0c' then ['\\', 'f']
  else if c = '\n' then ['\\', 'n']
  else if c = '\r' then ['\\', 'r']
  else if c = '\t' then ['\\', 't']
  else if c.toNat < 32 then
    ['\\', 'u', '0', '0', hexChar (c.toNat / 16), hexChar (c.toNat % 16)]
  else [c]

def escapeChars : List Char → List Char
  | [] => []
  | c :: cs => escapeJsonChar c ++ escapeChars cs

def dumpStringJ (s : String) : List Char :=
  '"' :: (escapeChars s.data ++ ['"'])

/- `json.dumps` with default separators (", " and ": ") and
ensure_ascii=False, over the character list. -/
mutual
def dumpJson : Json → List Char
  | .null => 'n' :: ['u', 'l', 'l']
  | .bool true => 't' :: ['r', 'u', 'e']
  | .bool false => 'f' :: ['a', 'l', 's', 'e']
  | .num n => intChars n
  | .str s => dumpStringJ s
  | .arr xs => '[' :: dumpJsonItems xs
  | .obj kvs => '{' :: dumpJsonFields kvs
def dumpJsonItems : JsonList → List Char
  | .nil => [']']
  | .cons x .nil => dumpJson x ++ [']']
  | .cons x (.cons y tl) =>
    dumpJson x ++ ',' :: ' ' :: dumpJsonItems (.cons y tl)
def dumpJsonFields : JsonObj → List Char
  | .objnil => ['}']
  | .objcons k v .objnil => dumpStringJ k ++ ':' :: ' ' :: (dumpJson v ++ ['}'])
  | .objcons k v (.objcons k2 v2 tl) =>
    dumpStringJ k ++ ':' :: ' '
      :: (dumpJson v ++ ',' :: ' ' :: dumpJsonFields (.objcons k2 v2 tl))
end

def dumpJsonStr (v : Json) : String := ⟨dumpJson v⟩

def jsonWsChar (c : Char) : Bool :=
  c = ' ' || c = '\t' || c = '\n' || c = '\r'

def skipWs : List Char → List Char
  | [] => []
  | c :: cs => if jsonWsChar c then skipWs cs else c :: cs

def hexVal (c : Char) : Option Nat :=
  if '0' ≤ c ∧ c ≤ '9' then some (c.toNat - 48)
  else if 'a' ≤ c ∧ c ≤ 'f' then some (c.toNat - 87)
  else if 'A' ≤ c ∧ c ≤ 'F' then some (c.toNat - 55)
  else none

/-- Parse the body of a JSON string (after the opening quote) up to the
closing quote, undoing the escapes. -/
def parseStringBody : List Char → Option (List Char × List Char)
  | [] => none
  | c :: cs =>
    if c = '"' then some ([], cs)
    else if c = '\\' then
      match cs with
      | [] => none
      | e :: cs2 =>
        if e = '"' then
          (parseStringBody cs2).map (fun p => ('"' :: p.1, p.2))
        else if e = '\\' then
          (parseStringBody cs2).map (fun p => ('\\' :: p.1, p.2))
        else if e = 'b' then
          (parseStringBody cs2).map (fun p => ('\x08' :: p.1, p.2))
        else if e = 'f' then
          (parseStringBody cs2).map (fun p => ('\x0c' :: p.1, p.2))
        else if e = 'n' then
          (parseStringBody cs2).map (fun p => ('\n' :: p.1, p.2))
        else if e = 'r' then
          (parseStringBody cs2).map (fun p => ('\r' :: p.1, p.2))
        else if e = 't' then
          (parseStringBody cs2).map (fun p => ('\t' :: p.1, p.2))
        else if e = 'u' then
          match cs2 with
          | h1 :: h2 :: h3 :: h4 :: cs3 =>
            match hexVal h1, hexVal h2, hexVal h3, hexVal h4 with
            | some a, some b, some c2, some d =>
              (parseStringBody cs3).map (fun p =>
                (Char.ofNat (((a * 16 + b) * 16 + c2) * 16 + d) :: p.1, p.2))
            | _, _, _, _ => none
          | _ => none
        else none
    else (parseStringBody cs).map (fun p => (c :: p.1, p.2))
termination_by cs => cs.length
decreasing_by all_goals simp_arith [List.length]

def digitsToNat (ds : List Char) : Nat :=
  ds.foldl (fun a c => a * 10 + (c.toNat - 48)) 0

def parseNatChars (cs : List Char) : Option (Nat × List Char) :=
  if (cs.takeWhile (fun c => c.isDigit)).isEmpty then none
  else some (digitsToNat (cs.takeWhile (fun c => c.isDigit)),
    cs.dropWhile (fun c => c.isDigit))

/- Fueled recursive-descent JSON parser (the model of `json.loads`),
complete for the output of `dumpJson`. -/
mutual
def parseJsonValue : Nat → List Char → Option (Json × List Char)
  | 0, _ => none
  | fuel + 1, cs =>
    match cs with
    | [] => none
    | c :: cs' =>
      if c = 'n' then
        match cs' with
        | 'u' :: 'l' :: 'l' :: rest => some (.null, rest)
        | _ => none
      else if c = 't' then
        match cs' with
        | 'r' :: 'u' :: 'e' :: rest => some (.bool true, rest)
        | _ => none
      else if c = 'f' then
        match cs' with
        | 'a' :: 'l' :: 's' :: 'e' :: rest => some (.bool false, rest)
        | _ => none
      else if c = '"' then
        (parseStringBody cs').map (fun p => (.str ⟨p.1⟩, p.2))
      else if c = '[' then
        (parseJsonItems fuel (skipWs cs')).map (fun p => (.arr p.1, p.2))
      else if c = '{' then
        (parseJsonFields fuel (skipWs cs')).map (fun p => (.obj p.1, p.2))
      else if c = '-' then
        (parseNatChars cs').map (fun p => (.num (-(p.1 : Int)), p.2))
      else if c.isDigit then
        (parseNatChars (c :: cs')).map (fun p => (.num (p.1 : Int), p.2))
      else none
def parseJsonItems : Nat → List Char → Option (JsonList × List Char)
  | 0, _ => none
  | fuel + 1, cs =>
    match cs with
    | [] => none
    | c :: cs' =>
      if c = ']' then some (.nil, cs')
      else
        match parseJsonValue fuel (c :: cs') with
        | none => none
        | some (v, r) =>
          match r with
          | ']' :: rest => some (.cons v .nil, rest)
          | ',' :: rest =>
            match parseJsonItems fuel (skipWs rest) with
            | some p => some (.cons v p.1, p.2)
            | none => none
          | _ => none
def parseJsonFields : Nat → List Char → Option (JsonObj × List Char)
  | 0, _ => none
  | fuel + 1, cs =>
    match cs with
    | [] => none
    | c :: cs' =>
      if c = '}' then some (.objnil, cs')
      else if c = '"' then
        match parseStringBody cs' with
        | none => none
        | some (k, r1) =>
          match r1 with
          | ':' :: r2 =>
            match parseJsonValue fuel (skipWs r2) with
            | none => none
            | some (v, r3) =>
              match r3 with
              | '}' :: rest => some (.objcons ⟨k⟩ v .objnil, rest)
              | ',' :: rest =>
                match parseJsonFields fuel (skipWs rest) with
                | some p => some (.objcons ⟨k⟩ v p.1, p.2)
                | none => none
              | _ => none
          | _ => none
      else none
end

/-- `json.loads`: parse a whole string, requiring only whitespace around
the single top-level value. -/
def loadsJson (s : String) : Option Json :=
  match parseJsonValue ((skipWs s.data).length + 1) (skipWs s.data) with
  | some p => if (skipWs p.2).isEmpty then some p.1 else none
  | none => none

end CcB

namespace CcB

theorem digitToChar_isDigit (d : Nat) (h : d < 10) :
    (digitToChar d).isDigit = true := by
  interval_cases d <;> decide

theorem digitToChar_toNat (d : Nat) (h : d < 10) :
    (digitToChar d).toNat - 48 = d := by
  interval_cases d <;> decide

theorem natChars_all_digits (n : Nat) :
    ∀ c ∈ natChars n, c.isDigit = true := by
  induction n using Nat.strong_induction_on with
  | _ n ih =>
    rw [natChars]
    by_cases h : n < 10
    · rw [if_pos h]
      intro c hc
      simp only [List.mem_singleton] at hc
      subst hc
      exact digitToChar_isDigit n h
    · rw [if_neg h]
      intro c hc
      rcases List.mem_append.mp hc with hc | hc
      · exact ih (n / 10) (Nat.div_lt_self (by omega) (by omega)) c hc
      · simp only [List.mem_singleton] at hc
        subst hc
        exact digitToChar_isDigit _ (Nat.mod_lt _ (by omega))

theorem natChars_ne_nil (n : Nat) : natChars n ≠ [] := by
  rw [natChars]
  by_cases h : n < 10
  · rw [if_pos h]
    simp
  · rw [if_neg h]
    simp

theorem natChars_head (n : Nat) :
    ∃ c t, natChars n = c :: t ∧ c.isDigit = true := by
  rcases hnc : natChars n with _ | ⟨c, t⟩
  · exact absurd hnc (natChars_ne_nil n)
  · exact ⟨c, t, rfl, natChars_all_digits n c
      (by rw [hnc]; exact List.mem_cons_self _ _)⟩

theorem digitsToNat_append_singleton (l : List Char) (c : Char) :
    digitsToNat (l ++ [c]) = digitsToNat l * 10 + (c.toNat - 48) := by
  simp [digitsToNat, List.foldl_append]

theorem digitsToNat_natChars (n : Nat) : digitsToNat (natChars n) = n := by
  induction n using Nat.strong_induction_on with
  | _ n ih =>
    rw [natChars]
    by_cases h : n < 10
    · rw [if_pos h]
      simp only [digitsToNat, List.foldl_cons, List.foldl_nil]
      rw [Nat.zero_mul, Nat.zero_add, digitToChar_toNat n h]
    · rw [if_neg h, digitsToNat_append_singleton,
        ih (n / 10) (Nat.div_lt_self (by omega) (by omega)),
        digitToChar_toNat _ (Nat.mod_lt _ (by omega))]
      omega

theorem takeWhile_append_all (p : Char → Bool) (l1 : List Char) :
    ∀ l2, (∀ c ∈ l1, p c = true) → (∀ c, l2.head? = some c → p c = false) →
    (l1 ++ l2).takeWhile p = l1 ∧ (l1 ++ l2).dropWhile p = l2 := by
  induction l1 with
  | nil =>
    intro l2 _ h2
    rcases l2 with _ | ⟨c, l2⟩
    · simp
    · have hc := h2 c rfl
      simp [List.takeWhile, List.dropWhile, hc]
  | cons c l1 ih =>
    intro l2 h1 h2
    have hc := h1 c (List.mem_cons_self _ _)
    obtain ⟨ht, hd⟩ := ih l2 (fun c' hc' => h1 c' (List.mem_cons_of_mem _ hc')) h2
    simp [List.takeWhile, List.dropWhile, hc, ht, hd]

/-- No digit immediately follows, so a parsed number cannot extend into the
continuation. -/
def numDelim (cs : List Char) : Prop :=
  ∀ c, cs.head? = some c → c.isDigit = false

theorem parseNatChars_natChars (n : Nat) (rest : List Char)
    (hrest : numDelim rest) :
    parseNatChars (natChars n ++ rest) = some (n, rest) := by
  obtain ⟨ht, hd⟩ := takeWhile_append_all (fun c => c.isDigit) (natChars n)
    rest (natChars_all_digits n) hrest
  simp only [parseNatChars, ht, hd]
  rw [if_neg (by simpa [List.isEmpty_iff] using natChars_ne_nil n)]
  rw [digitsToNat_natChars]

theorem hexVal_hexChar (d : Nat) (h : d < 16) :
    hexVal (hexChar d) = some d := by
  interval_cases d <;> decide

theorem digit_char_props (c : Char) (h : c.isDigit = true) :
    jsonWsChar c = false ∧ c ≠ ']' ∧ c ≠ '}' ∧ c ≠ 'n' ∧ c ≠ 't' ∧ c ≠ 'f'
      ∧ c ≠ '"' ∧ c ≠ '[' ∧ c ≠ '{' ∧ c ≠ '-' := by
  refine ⟨?_, ?_, ?_, ?_, ?_, ?_, ?_, ?_, ?_, ?_⟩
  · cases hw : jsonWsChar c
    · rfl
    · exfalso
      simp only [jsonWsChar, Bool.or_eq_true, decide_eq_true_eq] at hw
      rcases hw with ((rfl | rfl) | rfl) | rfl <;> exact absurd h (by decide)
  all_goals intro h'
  all_goals subst h'
  all_goals exact absurd h (by decide)

theorem dumpJson_head (v : Json) :
    ∃ c t, dumpJson v = c :: t ∧ jsonWsChar c = false ∧ c ≠ ']' ∧ c ≠ '}' := by
  cases v with
  | null =>
    exact ⟨'n', ['u', 'l', 'l'], by simp [dumpJson], by decide, by decide,
      by decide⟩
  | bool b =>
    cases b
    · exact ⟨'f', ['a', 'l', 's', 'e'], by simp [dumpJson], by decide,
        by decide, by decide⟩
    · exact ⟨'t', ['r', 'u', 'e'], by simp [dumpJson], by decide, by decide,
        by decide⟩
  | num n =>
    simp only [dumpJson, intChars]
    by_cases h : n < 0
    · rw [if_pos h]
      exact ⟨'-', _, rfl, by decide, by decide, by decide⟩
    · rw [if_neg h]
      obtain ⟨c, t, hnc, hd⟩ := natChars_head n.toNat
      obtain ⟨hw, h1, h2, -⟩ := digit_char_props c hd
      exact ⟨c, t, hnc, hw, h1, h2⟩
  | str s =>
    exact ⟨'"', escapeChars s.data ++ ['"'],
      by simp [dumpJson, dumpStringJ], by decide, by decide, by decide⟩
  | arr xs =>
    exact ⟨'[', dumpJsonItems xs, by simp [dumpJson], by decide, by decide,
      by decide⟩
  | obj kvs =>
    exact ⟨'{', dumpJsonFields kvs, by simp [dumpJson], by decide, by decide,
      by decide⟩

theorem dumpJsonItems_head (xs : JsonList) :
    ∃ c t, dumpJsonItems xs = c :: t ∧ jsonWsChar c = false := by
  cases xs with
  | nil => exact ⟨']', [], by simp [dumpJsonItems], by decide⟩
  | cons x tl =>
    obtain ⟨c, t, hx, hw, -, -⟩ := dumpJson_head x
    cases tl with
    | nil => exact ⟨c, t ++ [']'], by simp [dumpJsonItems, hx], hw⟩
    | cons y tl2 =>
      exact ⟨c, t ++ ',' :: ' ' :: dumpJsonItems (.cons y tl2),
        by simp [dumpJsonItems, hx], hw⟩

theorem dumpJsonFields_head (kvs : JsonObj) :
    ∃ c t, dumpJsonFields kvs = c :: t ∧ jsonWsChar c = false := by
  cases kvs with
  | objnil => exact ⟨'}', [], by simp [dumpJsonFields], by decide⟩
  | objcons k v tl =>
    cases tl with
    | objnil =>
      exact ⟨'"', escapeChars k.data ++ '"' :: ':' :: ' '
          :: (dumpJson v ++ ['}']),
        by simp [dumpJsonFields, dumpStringJ], by decide⟩
    | objcons k2 v2 tl2 =>
      exact ⟨'"', escapeChars k.data ++ '"' :: ':' :: ' '
          :: (dumpJson v ++ ',' :: ' ' :: dumpJsonFields (.objcons k2 v2 tl2)),
        by simp [dumpJsonFields, dumpStringJ], by decide⟩

theorem skipWs_not_ws (c : Char) (l : List Char) (h : jsonWsChar c = false) :
    skipWs (c :: l) = c :: l := by
  simp [skipWs, h]

theorem skipWs_ws (c : Char) (l : List Char) (h : jsonWsChar c = true) :
    skipWs (c :: l) = skipWs l := by
  simp [skipWs, h]

mutual
def jsonSizeF : Json → Nat
  | .arr xs => jsonListSizeF xs + 1
  | .obj kvs => jsonObjSizeF kvs + 1
  | _ => 1
def jsonListSizeF : JsonList → Nat
  | .nil => 1
  | .cons x tl => max (jsonSizeF x) (jsonListSizeF tl) + 1
def jsonObjSizeF : JsonObj → Nat
  | .objnil => 1
  | .objcons _ v tl => max (jsonSizeF v) (jsonObjSizeF tl) + 1
end

theorem jsonSizeF_pos (v : Json) : 1 ≤ jsonSizeF v := by
  cases v <;> simp [jsonSizeF]

theorem jsonListSizeF_pos (xs : JsonList) : 1 ≤ jsonListSizeF xs := by
  cases xs <;> simp [jsonListSizeF]

theorem jsonObjSizeF_pos (kvs : JsonObj) : 1 ≤ jsonObjSizeF kvs := by
  cases kvs <;> simp [jsonObjSizeF]

theorem dumpJson_length_pos (v : Json) : 1 ≤ (dumpJson v).length := by
  obtain ⟨c, t, h, -, -, -⟩ := dumpJson_head v
  rw [h]
  simp

mutual
theorem jsonSizeF_le (v : Json) :
    jsonSizeF v ≤ (dumpJson v).length + 1 := by
  cases v with
  | null => simp [jsonSizeF, dumpJson]
  | bool b => cases b <;> simp [jsonSizeF, dumpJson]
  | num n => simp [jsonSizeF]
  | str s => simp [jsonSizeF]
  | arr xs =>
    have := jsonListSizeF_le xs
    simp only [jsonSizeF, dumpJson, List.length_cons]
    omega
  | obj kvs =>
    have := jsonObjSizeF_le kvs
    simp only [jsonSizeF, dumpJson, List.length_cons]
    omega
theorem jsonListSizeF_le (xs : JsonList) :
    jsonListSizeF xs ≤ (dumpJsonItems xs).length + 1 := by
  cases xs with
  | nil => simp [jsonListSizeF, dumpJsonItems]
  | cons x tl =>
    cases tl with
    | nil =>
      have h1 := jsonSizeF_le x
      have h2 := dumpJson_length_pos x
      simp only [jsonListSizeF, dumpJsonItems, List.length_append,
        List.length_cons, List.length_nil]
      omega
    | cons y tl2 =>
      have h1 := jsonSizeF_le x
      have h2 := jsonListSizeF_le (.cons y tl2)
      simp only [jsonListSizeF, dumpJsonItems, List.length_append,
        List.length_cons] at h2 ⊢
      omega
theorem jsonObjSizeF_le (kvs : JsonObj) :
    jsonObjSizeF kvs ≤ (dumpJsonFields kvs).length + 1 := by
  cases kvs with
  | objnil => simp [jsonObjSizeF, dumpJsonFields]
  | objcons k v tl =>
    cases tl with
    | objnil =>
      have h1 := jsonSizeF_le v
      simp only [jsonObjSizeF, dumpJsonFields, List.length_append,
        List.length_cons]
      omega
    | objcons k2 v2 tl2 =>
      have h1 := jsonSizeF_le v
      have h2 := jsonObjSizeF_le (.objcons k2 v2 tl2)
      simp only [jsonObjSizeF, dumpJsonFields, List.length_append,
        List.length_cons] at h2 ⊢
      omega
end

end CcB

namespace CcB

theorem parseStringBody_escape (s : List Char) : ∀ rest,
    parseStringBody (escapeChars s ++ '"' :: rest) = some (s, rest) := by
  induction s with
  | nil =>
    intro rest
    simp only [escapeChars, List.nil_append]
    rw [parseStringBody.eq_def]
    simp
  | cons c s ih =>
    intro rest
    simp only [escapeChars, List.append_assoc]
    by_cases h1 : c = '"'
    · subst h1
      simp only [escapeJsonChar, if_pos rfl, List.cons_append,
        List.nil_append]
      rw [parseStringBody.eq_def]
      simp [ih]
    · by_cases h2 : c = '\\'
      · subst h2
        rw [show escapeJsonChar '\\' = ['\\', '\\'] by decide]
        simp only [List.cons_append, List.nil_append]
        rw [parseStringBody.eq_def]
        simp [ih]
      · by_cases h3 : c = '\x08'
        · subst h3
          rw [show escapeJsonChar '\x08' = ['\\', 'b'] by decide]
          simp only [List.cons_append, List.nil_append]
          rw [parseStringBody.eq_def]
          simp [ih]
        · by_cases h4 : c = '\x0c'
          · subst h4
            rw [show escapeJsonChar '\x0c' = ['\\', 'f'] by decide]
            simp only [List.cons_append, List.nil_append]
            rw [parseStringBody.eq_def]
            simp [ih]
          · by_cases h5 : c = '\n'
            · subst h5
              rw [show escapeJsonChar '\n' = ['\\', 'n'] by decide]
              simp only [List.cons_append, List.nil_append]
              rw [parseStringBody.eq_def]
              simp [ih]
            · by_cases h6 : c = '\r'
              · subst h6
                rw [show escapeJsonChar '\r' = ['\\', 'r'] by decide]
                simp only [List.cons_append, List.nil_append]
                rw [parseStringBody.eq_def]
                simp [ih]
              · by_cases h7 : c = '\t'
                · subst h7
                  rw [show escapeJsonChar '\t' = ['\\', 't'] by decide]
                  simp only [List.cons_append, List.nil_append]
                  rw [parseStringBody.eq_def]
                  simp [ih]
                · by_cases h8 : c.toNat < 32
                  · have hhi : c.toNat / 16 < 16 := by omega
                    have hlo : c.toNat % 16 < 16 := by omega
                    have harith : c.toNat / 16 * 16 + c.toNat % 16
                        = c.toNat := by
                      omega
                    have h0 : hexVal '0' = some 0 := by decide
                    simp only [escapeJsonChar, if_neg h1, if_neg h2,
                      if_neg h3, if_neg h4, if_neg h5, if_neg h6, if_neg h7,
                      if_pos h8, List.cons_append, List.nil_append]
                    rw [parseStringBody.eq_def]
                    simp [h0, hexVal_hexChar _ hhi, hexVal_hexChar _ hlo, ih]
                    rw [harith]
                    exact Char.ofNat_toNat c
                  · simp only [escapeJsonChar, if_neg h1, if_neg h2,
                      if_neg h3, if_neg h4, if_neg h5, if_neg h6, if_neg h7,
                      if_neg h8, List.cons_append, List.nil_append]
                    rw [parseStringBody.eq_def]
                    simp [h1, h2, ih]

end CcB

namespace CcB

theorem string_eta (s : String) : String.mk s.data = s := rfl

theorem parseJson_complete (fuel : Nat) :
    (∀ v rest, jsonSizeF v ≤ fuel → numDelim rest →
      parseJsonValue fuel (dumpJson v ++ rest) = some (v, rest)) ∧
    (∀ xs rest, jsonListSizeF xs ≤ fuel →
      parseJsonItems fuel (dumpJsonItems xs ++ rest) = some (xs, rest)) ∧
    (∀ kvs rest, jsonObjSizeF kvs ≤ fuel →
      parseJsonFields fuel (dumpJsonFields kvs ++ rest) = some (kvs, rest)) := by
  induction fuel with
  | zero =>
    refine ⟨?_, ?_, ?_⟩
    · intro v rest h _
      exact absurd h (by have := jsonSizeF_pos v; omega)
    · intro xs rest h
      exact absurd h (by have := jsonListSizeF_pos xs; omega)
    · intro kvs rest h
      exact absurd h (by have := jsonObjSizeF_pos kvs; omega)
  | succ fuel ih =>
    obtain ⟨ihv, ihl, iho⟩ := ih
    refine ⟨?_, ?_, ?_⟩
    · intro v rest hsz hdelim
      cases v with
      | null =>
        rw [show dumpJson Json.null = ['n', 'u', 'l', 'l'] by
          simp [dumpJson]]
        simp only [List.cons_append, List.nil_append]
        rw [parseJsonValue.eq_def]
        simp
      | bool b =>
        cases b
        · rw [show dumpJson (Json.bool false) = ['f', 'a', 'l', 's', 'e'] by
            simp [dumpJson]]
          simp only [List.cons_append, List.nil_append]
          rw [parseJsonValue.eq_def]
          simp
        · rw [show dumpJson (Json.bool true) = ['t', 'r', 'u', 'e'] by
            simp [dumpJson]]
          simp only [List.cons_append, List.nil_append]
          rw [parseJsonValue.eq_def]
          simp
      | num n =>
        simp only [dumpJson, intChars]
        by_cases hn : n < 0
        · rw [if_pos hn]
          have hna : -((n.natAbs : Nat) : Int) = n := by omega
          simp only [List.cons_append]
          rw [parseJsonValue.eq_def]
          simp [parseNatChars_natChars _ _ hdelim, hna]
          rw [abs_of_neg hn, neg_neg]
        · rw [if_neg hn]
          obtain ⟨c, t, hnc, hd⟩ := natChars_head n.toNat
          obtain ⟨hw, hrb, hob2, hn', ht', hf', hq', hlb, hcb, hmin⟩ :=
            digit_char_props c hd
          rw [hnc]
          simp only [List.cons_append]
          rw [parseJsonValue.eq_def]
          simp only [hn', ht', hf', hq', hlb, hcb, hmin, hd, if_false,
            if_true, ite_false, ite_true]
          have hna : ((n.toNat : Nat) : Int) = n := by omega
          rw [← List.cons_append, ← hnc,
            parseNatChars_natChars _ _ hdelim]
          simp [hna]
      | str s =>
        rw [show dumpJson (Json.str s)
            = '"' :: (escapeChars s.data ++ ['"']) by
          simp [dumpJson, dumpStringJ]]
        simp only [List.cons_append, List.append_assoc,
          List.singleton_append]
        rw [parseJsonValue.eq_def]
        simp [parseStringBody_escape, string_eta]
      | arr xs =>
        rw [show dumpJson (Json.arr xs) = '[' :: dumpJsonItems xs by
          simp [dumpJson]]
        simp only [List.cons_append]
        rw [parseJsonValue.eq_def]
        obtain ⟨c, t, hx, hw⟩ := dumpJsonItems_head xs
        have hskip : skipWs (dumpJsonItems xs ++ rest)
            = dumpJsonItems xs ++ rest := by
          rw [hx]
          simp only [List.cons_append]
          exact skipWs_not_ws _ _ hw
        have hsz' : jsonListSizeF xs ≤ fuel := by
          simp only [jsonSizeF] at hsz
          omega
        simp [hskip, ihl xs rest hsz']
      | obj kvs =>
        rw [show dumpJson (Json.obj kvs) = '{' :: dumpJsonFields kvs by
          simp [dumpJson]]
        simp only [List.cons_append]
        rw [parseJsonValue.eq_def]
        obtain ⟨c, t, hx, hw⟩ := dumpJsonFields_head kvs
        have hskip : skipWs (dumpJsonFields kvs ++ rest)
            = dumpJsonFields kvs ++ rest := by
          rw [hx]
          simp only [List.cons_append]
          exact skipWs_not_ws _ _ hw
        have hsz' : jsonObjSizeF kvs ≤ fuel := by
          simp only [jsonSizeF] at hsz
          omega
        simp [hskip, iho kvs rest hsz']
    · intro xs rest hsz
      cases xs with
      | nil =>
        rw [show dumpJsonItems JsonList.nil = [']'] by simp [dumpJsonItems]]
        simp only [List.cons_append, List.nil_append]
        rw [parseJsonItems.eq_def]
        simp
      | cons x tl =>
        obtain ⟨c, t, hx, hw, hrb, hob⟩ := dumpJson_head x
        cases tl with
        | nil =>
          have hszx : jsonSizeF x ≤ fuel := by
            simp only [jsonListSizeF] at hsz
            omega
          rw [show dumpJsonItems (JsonList.cons x .nil)
              = dumpJson x ++ [']'] by simp [dumpJsonItems]]
          rw [List.append_assoc]
          simp only [List.singleton_append]
          rw [hx]
          simp only [List.cons_append]
          rw [parseJsonItems.eq_def]
          simp only [if_neg hrb]
          rw [← List.cons_append, ← hx,
            ihv x (']' :: rest) hszx
              (by intro c' hc'; simp at hc'; subst hc'; decide)]
          simp
        | cons y tl2 =>
          have hszx : jsonSizeF x ≤ fuel := by
            simp only [jsonListSizeF] at hsz
            omega
          have hsztl : jsonListSizeF (.cons y tl2) ≤ fuel := by
            simp only [jsonListSizeF] at hsz ⊢
            omega
          rw [show dumpJsonItems (JsonList.cons x (.cons y tl2))
              = dumpJson x ++ ',' :: ' ' :: dumpJsonItems (.cons y tl2) by
            simp [dumpJsonItems]]
          rw [List.append_assoc]
          simp only [List.cons_append]
          rw [hx]
          simp only [List.cons_append]
          rw [parseJsonItems.eq_def]
          simp only [if_neg hrb]
          rw [← List.cons_append, ← hx,
            ihv x (',' :: ' ' :: (dumpJsonItems (.cons y tl2) ++ rest)) hszx
              (by intro c' hc'; simp at hc'; subst hc'; decide)]
          have hskip2 : skipWs (' ' :: (dumpJsonItems (.cons y tl2) ++ rest))
              = dumpJsonItems (.cons y tl2) ++ rest := by
            rw [skipWs_ws _ _ (by decide)]
            obtain ⟨c2, t2, hx2, hw2⟩ := dumpJsonItems_head (.cons y tl2)
            rw [hx2]
            simp only [List.cons_append]
            exact skipWs_not_ws _ _ hw2
          simp [hskip2, ihl (.cons y tl2) rest hsztl]
    · intro kvs rest hsz
      cases kvs with
      | objnil =>
        rw [show dumpJsonFields JsonObj.objnil = ['}'] by
          simp [dumpJsonFields]]
        simp only [List.cons_append, List.nil_append]
        rw [parseJsonFields.eq_def]
        simp
      | objcons k v tl =>
        obtain ⟨cv, tv, hv, hwv, -, -⟩ := dumpJson_head v
        cases tl with
        | objnil =>
          have hszv : jsonSizeF v ≤ fuel := by
            simp only [jsonObjSizeF] at hsz
            omega
          rw [show dumpJsonFields (JsonObj.objcons k v .objnil)
              = dumpStringJ k ++ ':' :: ' ' :: (dumpJson v ++ ['}']) by
            simp [dumpJsonFields]]
          simp only [dumpStringJ, List.cons_append, List.append_assoc,
            List.singleton_append]
          rw [parseJsonFields.eq_def]
          have hskipv : skipWs (' ' :: (dumpJson v ++ '}' :: rest))
              = dumpJson v ++ '}' :: rest := by
            rw [skipWs_ws _ _ (by decide), hv]
            simp only [List.cons_append]
            exact skipWs_not_ws _ _ hwv
          have hval := ihv v ('}' :: rest) hszv
            (by intro c' hc'; simp at hc'; subst hc'; decide)
          simp [parseStringBody_escape, hskipv, hval, string_eta]
        | objcons k2 v2 tl2 =>
          have hszv : jsonSizeF v ≤ fuel := by
            simp only [jsonObjSizeF] at hsz
            omega
          have hsztl : jsonObjSizeF (.objcons k2 v2 tl2) ≤ fuel := by
            simp only [jsonObjSizeF] at hsz ⊢
            omega
          rw [show dumpJsonFields (JsonObj.objcons k v (.objcons k2 v2 tl2))
              = dumpStringJ k ++ ':' :: ' '
                :: (dumpJson v ++ ',' :: ' '
                  :: dumpJsonFields (.objcons k2 v2 tl2)) by
            simp [dumpJsonFields]]
          simp only [dumpStringJ, List.cons_append, List.append_assoc,
            List.singleton_append]
          rw [parseJsonFields.eq_def]
          have hskipv : skipWs (' ' :: (dumpJson v ++ ',' :: ' '
              :: (dumpJsonFields (.objcons k2 v2 tl2) ++ rest)))
              = dumpJson v ++ ',' :: ' '
                :: (dumpJsonFields (.objcons k2 v2 tl2) ++ rest) := by
            rw [skipWs_ws _ _ (by decide), hv]
            simp only [List.cons_append]
            exact skipWs_not_ws _ _ hwv
          have hval := ihv v (',' :: ' '
              :: (dumpJsonFields (.objcons k2 v2 tl2) ++ rest)) hszv
            (by intro c' hc'; simp at hc'; subst hc'; decide)
          have hskipf : skipWs (' '
              :: (dumpJsonFields (.objcons k2 v2 tl2) ++ rest))
              = dumpJsonFields (.objcons k2 v2 tl2) ++ rest := by
            rw [skipWs_ws _ _ (by decide)]
            obtain ⟨c2, t2, hx2, hw2⟩ :=
              dumpJsonFields_head (.objcons k2 v2 tl2)
            rw [hx2]
            simp only [List.cons_append]
            exact skipWs_not_ws _ _ hw2
          simp [parseStringBody_escape, hskipv, hval, hskipf,
            iho (.objcons k2 v2 tl2) rest hsztl, string_eta]

end CcB

namespace CcB

theorem loadsJson_dumpJson (v : Json) : loadsJson (dumpJsonStr v) = some v := by
  obtain ⟨c, t, hv, hw, -, -⟩ := dumpJson_head v
  have hskip : skipWs (dumpJsonStr v).data = dumpJson v := by
    show skipWs (dumpJson v) = dumpJson v
    rw [hv]
    exact skipWs_not_ws c t hw
  have hcomp := (parseJson_complete ((dumpJson v).length + 1)).1 v []
    (by have := jsonSizeF_le v; omega)
    (by intro c' hc'; simp at hc')
  rw [List.append_nil] at hcomp
  simp only [loadsJson, hskip, hcomp]
  rfl

/-- The fixed enumeration of permission modes (`Literal["default", "plan",
"acceptEdits", "bypassPermissions"]` in models.py). -/
inductive PermissionMode where
  | defaultMode
  | plan
  | acceptEdits
  | bypassPermissions
deriving DecidableEq, Repr

def permissionModeToString : PermissionMode → String
  | .defaultMode => "default"
  | .plan => "plan"
  | .acceptEdits => "acceptEdits"
  | .bypassPermissions => "bypassPermissions"

/-- A row of the `user_settings` table: permission mode TEXT and the
JSON-encoded system prompt (nullable TEXT). -/
structure UserSettingsRow where
  permissionMode : String
  systemPrompt : Option String

def UserStore : Type := List (String × UserSettingsRow)

/-- `_serialize_system_prompt` (user_settings_store.py:10-16): Python None
(modelled as the top-level JSON null) is stored as SQL NULL, everything
else as its `json.dumps` encoding. -/
def serializeSystemPrompt : Json → Option String
  | .null => none
  | v => some (dumpJsonStr v)

/-- `_deserialize_system_prompt` (user_settings_store.py:19-25): NULL reads
back as None; other text is `json.loads`-decoded, falling back to the raw
string when decoding fails. -/
def deserializeSystemPrompt : Option String → Json
  | none => .null
  | some raw =>
    match loadsJson raw with
    | some v => v
    | none => .str raw

/-- `upsert_user_settings` (user_settings_store.py:45-66): last write wins
on both columns. -/
def upsertUserSettings (db : UserStore) (userId permissionMode : String)
    (systemPrompt : Json) : UserStore :=
  storeUpsert db userId
    (fun _ => ⟨permissionMode, serializeSystemPrompt systemPrompt⟩)

/-- The user-settings record as `fetch_user_settings` returns it. -/
structure UserSettings where
  userId : String
  permissionMode : String
  systemPrompt : Json

/-- `fetch_user_settings` (user_settings_store.py:28-42). -/
def fetchUserSettings (db : UserStore) (userId : String) :
    Option UserSettings :=
  (storeGet db userId).map (fun row =>
    ⟨userId, row.permissionMode, deserializeSystemPrompt row.systemPrompt⟩)

theorem deserialize_serialize (v : Json) :
    deserializeSystemPrompt (serializeSystemPrompt v) = v := by
  cases v with
  | null => rfl
  | bool b =>
    simp only [serializeSystemPrompt, deserializeSystemPrompt,
      loadsJson_dumpJson]
  | num n =>
    simp only [serializeSystemPrompt, deserializeSystemPrompt,
      loadsJson_dumpJson]
  | str s =>
    simp only [serializeSystemPrompt, deserializeSystemPrompt,
      loadsJson_dumpJson]
  | arr xs =>
    simp only [serializeSystemPrompt, deserializeSystemPrompt,
      loadsJson_dumpJson]
  | obj kvs =>
    simp only [serializeSystemPrompt, deserializeSystemPrompt,
      loadsJson_dumpJson]

end CcB

/-- Claim C10: for every user identity, every permission mode of the fixed
enumeration, and every JSON value as system prompt, fetching user settings
immediately after upserting them returns exactly the upserted permission
mode and the same system-prompt value — the prompt being stored by
JSON-encoding and recovered by JSON-decoding (with the raw string as
fallback when decoding fails, a case the encoding never produces). -/
theorem claim_C10_settings_roundtrip (db : CcB.UserStore) (uid : String)
    (mode : CcB.PermissionMode) (sp : CcB.Json) :
    CcB.fetchUserSettings
        (CcB.upsertUserSettings db uid (CcB.permissionModeToString mode) sp)
        uid
      = some ⟨uid, CcB.permissionModeToString mode, sp⟩ := by
  simp only [CcB.fetchUserSettings, CcB.upsertUserSettings,
    CcB.storeGet_storeUpsert_self, Option.map_some']
  rw [CcB.deserialize_serialize]
